import Mathlib

/-!
# A shallow embedding of Pangolin's `PacketStreamReader`

This file models `src/src/log/packetstream_reader.cpp`: the frame-dispatch
and indexing engine of the Pangolin packet-stream reader, together with the
parts of its interface state (payload window, recursive lock count, per-source
sequence counters, packet index) that the verified properties talk about.

The underlying tagged-stream primitive (`PacketStream` in the Pangolin
repository) is not part of the given sources; it is modelled from the spec's
§6 interface description at *record* granularity: the medium is a list of
tagged records, a stream position is a record index, and the bounded
"data window" used for payload reads is an explicit counter (`dataLen`,
the `_data_len` of the primitive) together with a byte offset into the
current packet record's payload.  One separate byte-level model is given
for `SkipSync`, whose behaviour depends on individual byte reads.
-/

namespace Pangolin

/-- `PacketStreamSource`: identity and schema of one logical data producer,
as populated by `PacketStreamReader::ParseNewSource`.  The opaque JSON
`info` blob is carried as a string. -/
structure PacketStreamSource where
  driver : String
  id : Nat
  uri : String
  info : String
  version : Nat
  data_alignment_bytes : Nat
  data_definitions : String
  data_size_bytes : Nat
deriving DecidableEq, Repr

/-- One tagged record of the on-disk format (spec §6, wire format items 2-8).
Modelled from the spec: the tagged-stream primitive presents the stream as a
sequence of tagged records; `srcPacket` carries its timestamp and payload
bytes (the inline variable-size field is recovered as `payload.length`),
`stats` carries the decoded two-dimensional index
`(source, sequence, position)`, `footer` carries the stored index position,
and `unknownTag` stands for any unrecognized tag. -/
inductive Record where
  | addSource (pss : PacketStreamSource)
  | srcJson (src : Nat)
  | srcPacket (src : Nat) (time : Nat) (payload : List Nat)
  | sync
  | stats (entries : List (Nat × Nat × Nat))
  | footer (indexPos : Nat)
  | endRec
  | hdr
  | magic
  | unknownTag
deriving DecidableEq, Repr

/-- `FrameInfo`: one located, not yet consumed frame.  `hasMeta` records
whether a `TAG_SRC_JSON` metadata marker preceded the payload marker (the
C++ encodes this in the truthiness of the partially filled structure).
The "no frame" sentinel of the C++ (`FrameInfo()`, falsy) is modelled as
`Option FrameInfo` being `none`. -/
structure FrameInfo where
  src : Nat
  time : Nat
  size : Nat
  sequence_num : Nat
  frame_streampos : Nat
  packet_streampos : Nat
  hasMeta : Bool
deriving DecidableEq, Repr

/-- The distinct failure exits of the reader, one constructor per `throw`
site of the modelled code (plus `outOfFuel`, an artifact of the bounded
recursion used for the loops; it is unreachable with the fuel bounds the
public definitions use, as the adequacy lemmas below show). -/
inductive Err where
  /-- "Id mismatch parsing source descriptors. Possible corrupt stream?" -/
  | idMismatch
  /-- tag mismatch inside `readTag(expected)` of the stream primitive -/
  | tagMismatch
  /-- "Frame preceded by metadata for a mismatched source. Stream may be corrupt." -/
  | metaSrcMismatch
  /-- out-of-range source access when resolving a frame's source descriptor -/
  | sourceRangeError
  /-- Modelled from the spec: failure of the `PANGO_ENSURE` legacy-position assertion -/
  | ensureViolation
  /-- "Stream is not seekable (probably a pipe)." (`UnsupportedOperation`) -/
  | notSeekable
  /-- "Invalid Frame Source ID." (`InvalidArgument`) -/
  | invalidSourceId
  /-- "Packetstream not positioned on data block." (`InvalidState`) -/
  | noDataBlock
  /-- "frame number not in sequence" (`OutOfRange`) -/
  | frameNotInSequence
  /-- "Unknown packet type." (thrown by `SkipSync`) -/
  | unknownPacketType
  /-- artifact of the bounded-recursion embedding -/
  | outOfFuel
deriving DecidableEq, Repr

/-- Decidable equality for `Except` results, so that concrete runs of the
model can be settled by `decide`. -/
instance {ε α : Type} [DecidableEq ε] [DecidableEq α] : DecidableEq (Except ε α) := fun a b =>
  match a, b with
  | .ok x, .ok y => if h : x = y then .isTrue (by rw [h]) else .isFalse (by simp [h])
  | .error x, .error y => if h : x = y then .isTrue (by rw [h]) else .isFalse (by simp [h])
  | .ok _, .error _ => .isFalse (by simp)
  | .error _, .ok _ => .isFalse (by simp)

/-- The mutable state of a `PacketStreamReader` session, merged with the
state of its underlying tagged stream.  `pos` is the current record index;
`inPayload`/`consumed` locate the cursor inside the payload of record `pos`
once a frame header has been parsed; `dataLen` is the `_data_len` window
counter of the stream primitive; `lockCount` is the hold count of the
re-entrant `_mutex`; `pipeFd` is `_pipe_fd`; `streamOpen` models whether
the medium is open. -/
structure ReaderState where
  pos : Nat
  inPayload : Bool
  consumed : Nat
  dataLen : Nat
  seekableFlag : Bool
  sources : List PacketStreamSource
  next_packet_framenum : List Nat
  index : List (Nat × Nat × Nat)
  lockCount : Nat
  pipeFd : Int
  streamOpen : Bool
deriving DecidableEq, Repr

/-- `PacketIndex::has(src, seq)`. -/
def indexHas (idx : List (Nat × Nat × Nat)) (src seq : Nat) : Bool :=
  idx.any (fun e => e.1 == src && e.2.1 == seq)

/-- `PacketIndex::position(src, seq)` (0 when absent, like a defaulted map). -/
def indexPosition (idx : List (Nat × Nat × Nat)) (src seq : Nat) : Nat :=
  match idx.find? (fun e => e.1 == src && e.2.1 == seq) with
  | some e => e.2.2
  | none => 0

/-- `PacketIndex::add(src, seq, pos)`. -/
def indexAdd (idx : List (Nat × Nat × Nat)) (src seq p : Nat) : List (Nat × Nat × Nat) :=
  idx ++ [(src, seq, p)]

/-- `Lock()`: acquire the re-entrant session mutex once. -/
def lockR (s : ReaderState) : ReaderState := { s with lockCount := s.lockCount + 1 }

/-- `Unlock()`: release one hold of the session mutex. -/
def unlockR (s : ReaderState) : ReaderState := { s with lockCount := s.lockCount - 1 }

/-- `_stream.data_len(n)`: declare a data window of `n` bytes. -/
def setDataLen (n : Nat) (s : ReaderState) : ReaderState := { s with dataLen := n }

/-- `_stream.seekg(p)` of the tagged-stream primitive.  Modelled from the
spec: `seek(pos)` repositions the medium at the given (record) position;
the spec's §6 interface gives the data window its own declare/query
operations and does not tie them to `seek`, so `dataLen` is left unchanged. -/
def seekg (p : Nat) (s : ReaderState) : ReaderState :=
  { s with pos := p, inPayload := false, consumed := 0 }

/-- `_stream.read(buf, len)` of the tagged-stream primitive, returning the
bytes read.  Modelled from the spec: a bounded read operating within the
declared data window.  Aligned on a packet payload it yields that payload's
bytes; at any other position the raw bytes read are not representable at
record granularity and are modelled as zeros.  The window counter shrinks
by `len` either way. -/
def streamRead (recs : List Record) (len : Nat) (s : ReaderState) :
    List Nat × ReaderState :=
  if s.inPayload then
    match recs[s.pos]? with
    | some (.srcPacket _ _ pl) =>
        let bytes := (pl.drop s.consumed).take len
        let c := s.consumed + len
        if pl.length ≤ c then
          (bytes, { s with pos := s.pos + 1, inPayload := false, consumed := 0,
                           dataLen := s.dataLen - len })
        else
          (bytes, { s with consumed := c, dataLen := s.dataLen - len })
    | _ => (List.replicate len 0, { s with dataLen := s.dataLen - len })
  else
    (List.replicate len 0, { s with dataLen := s.dataLen - len })

/-- `_stream.skip(len)` of the tagged-stream primitive: like `streamRead`
but discarding the bytes. -/
def streamSkip (recs : List Record) (len : Nat) (s : ReaderState) : ReaderState :=
  (streamRead recs len s).2

/-- `PacketStreamReader::ParseNewSource` (lines 119-142): consume an
`ADD_SOURCE` record, fail with the id-mismatch format error unless the
descriptor's id equals the current registry size, otherwise append it to
`_sources`, grow `_next_packet_framenum` to cover it, and zero its counter. -/
def ParseNewSource (recs : List Record) (s : ReaderState) :
    Except Err Unit × ReaderState :=
  match recs[s.pos]? with
  | some (.addSource pss) =>
      let s1 := { s with pos := s.pos + 1 }
      if s1.sources.length ≠ pss.id then (.error .idMismatch, s1)
      else
        let cnts := s1.next_packet_framenum
        let cnts := if cnts.length < pss.id + 1 then
            cnts ++ List.replicate (pss.id + 1 - cnts.length) 0 else cnts
        let cnts := cnts.set pss.id 0
        (.ok (), { s1 with sources := s1.sources ++ [pss],
                           next_packet_framenum := cnts })
  | _ => (.error .tagMismatch, s)

/-- `PacketStreamReader::ParseIndex` (lines 172-183): consume a `STATS`
record and load its decoded two-dimensional array into `_index`. -/
def ParseIndex (recs : List Record) (s : ReaderState) : ReaderState :=
  match recs[s.pos]? with
  | some (.stats entries) => { s with pos := s.pos + 1, index := entries }
  | _ => s

/-- `PacketStreamReader::ParseHeader` (lines 105-117) at record granularity:
consume the header record (tag, JSON blob, trailing newline). -/
def ParseHeader (recs : List Record) (s : ReaderState) : ReaderState :=
  match recs[s.pos]? with
  | some .hdr => { s with pos := s.pos + 1 }
  | _ => s

/-- `PacketStreamReader::ReSync`: not part of the given sources.
Modelled from the spec: scan forward discarding bytes until a recognized
tag boundary is found — at record granularity, advance past the current
(unrecognized or misaligned) record. -/
def ReSync (s : ReaderState) : ReaderState :=
  { s with pos := s.pos + 1, inPayload := false, consumed := 0 }

/-- The scan loop of `SkipSync` (lines 389-390): read and discard tags until
the pending tag is `TAG_SRC_PACKET` or `TAG_END` (or the data runs out). -/
def syncScan (recs : List Record) : Nat → Nat → Nat
  | 0, p => p
  | fuel + 1, p =>
      match recs[p]? with
      | none => p
      | some (.srcPacket _ _ _) => p
      | some .endRec => p
      | some _ => syncScan recs fuel (p + 1)

/-- `PacketStreamReader::SkipSync` (lines 383-391) at record granularity:
consume the sync record and scan forward to the next packet or end marker.
(The byte-level two-byte continuation check, with its short-circuit flaw,
is modelled separately in `skipSyncBytes`.) -/
def SkipSync (recs : List Record) (s : ReaderState) : ReaderState :=
  let p := syncScan recs (recs.length + 1) (s.pos + 1)
  { s with pos := p, inPayload := false, consumed := 0 }

/-- The tail of `readFrameHeader`: resolve the payload size from the
source's fixed `data_size_bytes` or the inline length, assign
`sequence_num` from the per-source counter (read only, not incremented
here), and position the medium at the payload start. -/
def resolveFrame (frameStreampos packetStreampos psrc ptime : Nat)
    (payload : List Nat) (hasMeta : Bool) (s1 : ReaderState) :
    Except Err FrameInfo × ReaderState :=
  match s1.sources[psrc]? with
  | none => (.error .sourceRangeError, s1)
  | some pss =>
    match s1.next_packet_framenum[psrc]? with
    | none => (.error .sourceRangeError, s1)
    | some seq =>
      let sz := if pss.data_size_bytes ≠ 0 then pss.data_size_bytes
                else payload.length
      let s2 := if payload.length = 0 then
          { s1 with pos := packetStreampos + 1, inPayload := false, consumed := 0 }
        else
          { s1 with pos := packetStreampos, inPayload := true, consumed := 0 }
      (.ok ⟨psrc, ptime, sz, seq, frameStreampos, packetStreampos, hasMeta⟩, s2)

/-- The part of `readFrameHeader` from `packet_streampos` on: consume the
mandatory `TAG_SRC_PACKET` marker and timestamp, check metadata/payload
source agreement, and resolve size and sequence number via `resolveFrame`. -/
def readPacketPart (recs : List Record) (frameStreampos : Nat)
    (metaSrc : Option Nat) (s1 : ReaderState) :
    Except Err FrameInfo × ReaderState :=
  let packetStreampos := s1.pos
  match recs[s1.pos]? with
  | some (.srcPacket psrc ptime payload) =>
      match metaSrc with
      | some m =>
          -- metadata must be followed by a frame from the same source
          if psrc ≠ m then (.error .metaSrcMismatch, s1)
          else resolveFrame frameStreampos packetStreampos psrc ptime payload true s1
      | none =>
          resolveFrame frameStreampos packetStreampos psrc ptime payload false s1
  | _ => (.error .tagMismatch, s1)

/-- `PacketStreamReader::readFrameHeader` (lines 398-430): record the
current position as `frame_streampos`; consume a `TAG_SRC_JSON` metadata
marker if present; then `readPacketPart` for the rest. -/
def readFrameHeader (recs : List Record) (s : ReaderState) :
    Except Err FrameInfo × ReaderState :=
  match recs[s.pos]? with
  | some (.srcJson m) => readPacketPart recs s.pos (some m) { s with pos := s.pos + 1 }
  | _ => readPacketPart recs s.pos none s

/-- `PacketStreamReader::_nextFrame` (lines 217-255): the tag-driven
dispatch loop.  Peeks the next tag and acts: sync/magic → `SkipSync`;
`ADD_SOURCE` → `ParseNewSource`; metadata or packet marker →
`readFrameHeader`; stats → `ParseIndex`; footer or end → the "no frame"
sentinel; header → `ParseHeader`; anything else → warn and `ReSync`.
End of readable data (`GoodToRead` false on a non-pipe medium) also yields
the sentinel.  A cursor left inside a payload is not on a tag boundary;
peeking there is modelled as an unrecognized tag, hence `ReSync`. -/
def nextFrameAux (recs : List Record) : Nat → ReaderState →
    Except Err (Option FrameInfo) × ReaderState
  | 0, s => (.error .outOfFuel, s)
  | fuel + 1, s =>
      if s.inPayload then nextFrameAux recs fuel (ReSync s)
      else
        match recs[s.pos]? with
        | none => (.ok none, s)
        | some r =>
            match r with
            | .sync => nextFrameAux recs fuel (SkipSync recs s)
            | .magic => nextFrameAux recs fuel (SkipSync recs s)
            | .addSource _ =>
                match ParseNewSource recs s with
                | (.error e, s') => (.error e, s')
                | (.ok _, s') => nextFrameAux recs fuel s'
            | .srcJson _ =>
                match readFrameHeader recs s with
                | (.error e, s') => (.error e, s')
                | (.ok fi, s') => (.ok (some fi), s')
            | .srcPacket _ _ _ =>
                match readFrameHeader recs s with
                | (.error e, s') => (.error e, s')
                | (.ok fi, s') => (.ok (some fi), s')
            | .stats _ => nextFrameAux recs fuel (ParseIndex recs s)
            | .footer _ => (.ok none, s)
            | .endRec => (.ok none, s)
            | .hdr => nextFrameAux recs fuel (ParseHeader recs s)
            | .unknownTag => nextFrameAux recs fuel (ReSync s)

/-- `_nextFrame` with its public fuel bound (the loop consumes at least one
record per iteration, so `recs.length + 1` iterations always suffice). -/
def nextFrameDispatch (recs : List Record) (s : ReaderState) :
    Except Err (Option FrameInfo) × ReaderState :=
  nextFrameAux recs (recs.length + 1) s

/-- The body of `PacketStreamReader::NextFrame`'s `while (1)` loop
(lines 262-297), entered with the lock already held: dispatch the next
frame; on the sentinel release the lock and return it; otherwise increment
that source's `_next_packet_framenum`, reconcile the `PacketIndex` (add a
missing entry; on a position mismatch require, per the `PANGO_ENSURE`
legacy tolerance, that the indexed position equals the payload-start
position), declare the payload data window, and either return the frame —
keeping the lock — if its source matches the request, or skip its payload
and loop. -/
def NextFrameLoop (recs : List Record) (src : Nat) : Nat → ReaderState →
    Except Err (Option FrameInfo) × ReaderState
  | 0, s => (.error .outOfFuel, s)
  | fuel + 1, s =>
      match nextFrameDispatch recs s with
      | (.error e, s') => (.error e, s')
      | (.ok none, s') => (.ok none, unlockR s')
      | (.ok (some fi), s') =>
          let cnt := s'.next_packet_framenum.getD fi.src 0
          let s2 := { s' with
            next_packet_framenum := s'.next_packet_framenum.set fi.src (cnt + 1) }
          if s2.seekableFlag then
            if ¬ indexHas s2.index fi.src fi.sequence_num then
              let idx2 := indexAdd s2.index fi.src fi.sequence_num fi.frame_streampos
              let s3 := { s2 with index := idx2 }
              let s4 := setDataLen fi.size s3
              if fi.src = src then (.ok (some fi), s4)
              else NextFrameLoop recs src fuel (streamSkip recs fi.size s4)
            else if indexPosition s2.index fi.src fi.sequence_num ≠ fi.frame_streampos then
              if indexPosition s2.index fi.src fi.sequence_num ≠ fi.packet_streampos then
                (.error .ensureViolation, s2)
              else
                -- legacy-format warning only
                let s4 := setDataLen fi.size s2
                if fi.src = src then (.ok (some fi), s4)
                else NextFrameLoop recs src fuel (streamSkip recs fi.size s4)
            else
              let s4 := setDataLen fi.size s2
              if fi.src = src then (.ok (some fi), s4)
              else NextFrameLoop recs src fuel (streamSkip recs fi.size s4)
          else
            let s4 := setDataLen fi.size s2
            if fi.src = src then (.ok (some fi), s4)
            else NextFrameLoop recs src fuel (streamSkip recs fi.size s4)

/-- `PacketStreamReader::NextFrame` (lines 257-309): acquire the session
lock, run the dispatch loop, and — mirroring the explicit catch blocks —
release the lock before any exception propagates.  The lock is retained
only on the successful return of a frame matching the requested source
(the sentinel return releases it inside the loop). -/
def NextFrame (recs : List Record) (src : Nat) (s : ReaderState) :
    Except Err (Option FrameInfo) × ReaderState :=
  let s0 := lockR s
  match NextFrameLoop recs src (recs.length + 1) s0 with
  | (.error e, s') => (.error e, unlockR s')
  | (.ok r, s') => (.ok r, s')

/-- `PacketStreamReader::ReadRaw` (lines 311-328): require an active data
window (else the `InvalidState` error), clamp the requested length to the
remaining window (warning only), read, and release the `NextFrame` lock
once the window is exhausted.  Returns the bytes read. -/
def ReadRaw (recs : List Record) (len : Nat) (s : ReaderState) :
    Except Err (List Nat) × ReaderState :=
  if s.dataLen = 0 then (.error .noDataBlock, s)
  else
    let len' := if s.dataLen < len then s.dataLen else len
    let (bytes, s1) := streamRead recs len' s
    if s1.dataLen = 0 then (.ok bytes, unlockR s1) else (.ok bytes, s1)

/-- `PacketStreamReader::Skip` (lines 330-343): as `ReadRaw` but discarding
the bytes; returns the number of bytes skipped. -/
def Skip (recs : List Record) (len : Nat) (s : ReaderState) :
    Except Err Nat × ReaderState :=
  if s.dataLen = 0 then (.error .noDataBlock, s)
  else
    let len' := if s.dataLen < len then s.dataLen else len
    let s1 := streamSkip recs len' s
    if s1.dataLen = 0 then (.ok len', unlockR s1) else (.ok len', s1)

/-- The `while (!_index.has(src, framenum))` read-ahead loop of
`PacketStreamReader::Seek` (lines 358-368): on an index miss, drain any
pending data window directly on the stream and read forward via
`NextFrame(src)`, failing with the out-of-range error at end-of-stream. -/
def seekScan (recs : List Record) (src framenum : Nat) : Nat → ReaderState →
    Except Err Unit × ReaderState
  | 0, s => (.error .outOfFuel, s)
  | fuel + 1, s =>
      if indexHas s.index src framenum then (.ok (), s)
      else
        let s1 := if s.dataLen ≠ 0 then streamSkip recs s.dataLen s else s
        match NextFrame recs src s1 with
        | (.error e, s2) => (.error e, s2)
        | (.ok none, s2) => (.error .frameNotInSequence, s2)
        | (.ok (some _), s2) => seekScan recs src framenum fuel s2

/-- `PacketStreamReader::Seek` (lines 345-381): under the scoped lock,
require a seekable medium (else `UnsupportedOperation`) and check the
source id with the code's `src > _sources.size()` comparison (else
`InvalidArgument`); drain any pending data window via `Skip`; read ahead
until the target is indexed; then seek to the indexed frame-header
position, reset that source's next-sequence counter to the target, re-parse
the frame header there, seek back to the payload-marker position, and
return the parsed descriptor. -/
def Seek (recs : List Record) (src framenum : Nat) (s : ReaderState) :
    Except Err FrameInfo × ReaderState :=
  let s0 := lockR s
  if ¬ s0.seekableFlag then (.error .notSeekable, unlockR s0)
  else if src > s0.sources.length then (.error .invalidSourceId, unlockR s0)
  else
    let s1 := if s0.dataLen ≠ 0 then (Skip recs s0.dataLen s0).2 else s0
    match seekScan recs src framenum (recs.length + 1) s1 with
    | (.error e, s2) => (.error e, unlockR s2)
    | (.ok _, s2) =>
        let target := indexPosition s2.index src framenum
        let s3 := seekg target s2
        let s4 := { s3 with next_packet_framenum :=
          s3.next_packet_framenum.set src framenum }
        match readFrameHeader recs s4 with
        | (.error e, s5) => (.error e, unlockR s5)
        | (.ok fi, s5) => (.ok fi, unlockR (seekg fi.packet_streampos s5))

/-- `PacketStreamReader::Close` (lines 92-103): close the medium, clear the
source registry, and — when `_pipe_fd` is not `-1` — issue an OS `close`
on it.  The returned list records the file descriptors passed to the OS
`close` call.  Note the code does not reset `_pipe_fd`. -/
def Close (s : ReaderState) : ReaderState × List Int :=
  let events := if s.pipeFd ≠ -1 then [s.pipeFd] else []
  ({ s with streamOpen := false, sources := [] }, events)

/-- `PacketStreamReader::SetupIndex` (lines 144-162): on a seekable medium,
inspect the fixed-size trailer at end-of-stream (modelled as the last
record); if it is a footer whose stored position holds a stats record,
load that index; any mismatch leaves the index empty. -/
def SetupIndex (recs : List Record) (s : ReaderState) : ReaderState :=
  if ¬ s.seekableFlag then s
  else
    match recs[recs.length - 1]? with
    | some (.footer ip) =>
        match recs[ip]? with
        | some (.stats entries) => { s with index := entries }
        | _ => s
    | _ => s

/-- The fresh session state right after the magic prefix has been verified:
position 0 of the record stream, nothing registered, no window, no lock. -/
def initState (seekable : Bool) : ReaderState :=
  { pos := 0, inPayload := false, consumed := 0, dataLen := 0,
    seekableFlag := seekable, sources := [], next_packet_framenum := [],
    index := [], lockCount := 0, pipeFd := -1, streamOpen := true }

/-- The `while (_stream.peekTag() == TAG_ADD_SOURCE) ParseNewSource()` loop
at the end of `PacketStreamReader::Open` (lines 87-89). -/
def openAddSources (recs : List Record) : Nat → ReaderState →
    Except Err Unit × ReaderState
  | 0, s => (.error .outOfFuel, s)
  | fuel + 1, s =>
      match recs[s.pos]? with
      | some (.addSource _) =>
          match ParseNewSource recs s with
          | (.error e, s') => (.error e, s')
          | (.ok _, s') => openAddSources recs fuel s'
      | _ => (.ok (), s)

/-- `PacketStreamReader::Open` (lines 62-90), starting after the byte-exact
magic check: `SetupIndex`, then the header record, then zero or more
leading source-registration records. -/
def Open (recs : List Record) (seekable : Bool) :
    Except Err Unit × ReaderState :=
  let s := SetupIndex recs (initState seekable)
  match recs[s.pos]? with
  | some .hdr =>
      openAddSources recs (recs.length + 1) { s with pos := s.pos + 1 }
  | _ => (.error .tagMismatch, s)

/-! ## Byte-level model of `SkipSync`'s continuation check

`SkipSync` (lines 383-391) begins, after the shared `PAN` prefix has been
consumed by the tag peek, with

  `if (_stream.get() != 'G' && _stream.get() != 'O') throw ...`

operating on raw bytes.  This function mirrors exactly that conditional,
including C++ short-circuit evaluation of `&&`, on a list of input bytes
(`'G' = 71`, `'O' = 79`; end-of-data makes `get()` return a value that
compares unequal to both).  It returns the number of bytes consumed and
the remaining input. -/
def skipSyncBytes (input : List Nat) : Except Err (Nat × List Nat) :=
  match input with
  | [] => .error .unknownPacketType
  | b1 :: rest1 =>
      if b1 ≠ 71 then
        match rest1 with
        | [] => .error .unknownPacketType
        | b2 :: rest2 =>
            if b2 ≠ 79 then .error .unknownPacketType
            else .ok (2, rest2)
      else
        -- first byte read `'G'`: `&&` short-circuits, the second byte is
        -- never read
        .ok (1, rest1)



/-! ## Concrete streams used to exercise the model -/

/-- A variable-size source descriptor with id 0. -/
def srcDesc0 : PacketStreamSource :=
  { driver := "d", id := 0, uri := "u", info := "", version := 1,
    data_alignment_bytes := 1, data_definitions := "", data_size_bytes := 0 }

/-- A well-formed stream: header, one variable-size source, two frames of
source 0 with payloads `[1,2,3]` and `[4,5,6]`, end marker. -/
def recsTwo : List Record :=
  [.hdr, .addSource srcDesc0, .srcPacket 0 5 [1,2,3], .srcPacket 0 6 [4,5,6], .endRec]

/-- The session state after `Open` on `recsTwo`. -/
def openedTwo : ReaderState := (Open recsTwo true).2

/-- A stream whose second `ADD_SOURCE` record re-registers source id 0
mid-stream. -/
def recsReReg : List Record :=
  [.hdr, .addSource srcDesc0, .srcPacket 0 5 [1], .addSource srcDesc0,
   .srcPacket 0 6 [2], .endRec]

/-! ## Valid streams and their reference quantities

The theorems about whole-stream behaviour quantify over *valid* streams:
a header record, then interleaved source registrations (with dense ids)
and data packets (whose source is registered and whose payload length
agrees with a fixed-size schema), finished by a single end marker.  The
reference quantities below (registered sources, per-source packet counts,
accumulated index entries) are computed directly from the record list and
the dispatcher's states are characterized against them. -/

/-- Is this record a data packet of source `a`? -/
def isPktOf (a : Nat) : Record → Bool
  | .srcPacket b _ _ => b == a
  | _ => false

/-- Is this record a data packet? -/
def isPkt : Record → Bool
  | .srcPacket _ _ _ => true
  | _ => false

/-- The source descriptors a single record registers. -/
def regOf : Record → List PacketStreamSource
  | .addSource pss => [pss]
  | _ => []

/-- The index entry a single record at position `m` contributes when
dispatched with counter value `c`. -/
def pktEntryOf (m c : Nat) : Record → List (Nat × Nat × Nat)
  | .srcPacket a _ _ => [(a, c, m)]
  | _ => []

/-- The payload of the packet record at position `q` (empty otherwise). -/
def payloadAt (recs : List Record) (q : Nat) : List Nat :=
  match recs[q]? with
  | some (.srcPacket _ _ pl) => pl
  | _ => []

/-- The source descriptors registered by the records before position `p`,
in registration order. -/
def regsUpTo (recs : List Record) (p : Nat) : List PacketStreamSource :=
  (recs.take p).filterMap (fun r => match r with
    | .addSource pss => some pss
    | _ => none)

/-- Number of data packets of source `a` before position `p`. -/
def cntPkts (recs : List Record) (a p : Nat) : Nat :=
  ((recs.take p).filter (isPktOf a)).length

/-- The per-source next-sequence counters after dispatching every record
before `p`. -/
def countersAt (recs : List Record) (p : Nat) : List Nat :=
  (List.range (regsUpTo recs p).length).map (fun a => cntPkts recs a p)

/-- The packet-index entries accumulated by dispatching every packet
record before `m`, in encounter order. -/
def idxEntries (recs : List Record) (m : Nat) : List (Nat × Nat × Nat) :=
  (List.range m).filterMap (fun i => match recs[i]? with
    | some (Record.srcPacket a _ _) => some (a, cntPkts recs a i, i)
    | _ => none)

/-- Number of data packets at positions `≥ p`. -/
def remPkts (recs : List Record) (p : Nat) : Nat :=
  ((recs.drop p).filter isPkt).length

/-- `validFrom srcs l`: `l` is a well-formed stream remainder relative to
the already-registered descriptors `srcs`. -/
def validFrom (srcs : List PacketStreamSource) : List Record → Bool
  | [] => false
  | .endRec :: rest => rest.isEmpty
  | .addSource pss :: rest =>
      pss.id == srcs.length && validFrom (srcs ++ [pss]) rest
  | .srcPacket a _ pl :: rest =>
      (match srcs[a]? with
       | some pss => pss.data_size_bytes == 0 || pl.length == pss.data_size_bytes
       | none => false)
      && validFrom srcs rest
  | _ => false

/-- A valid stream: a header record followed by a well-formed body. -/
def ValidStream (recs : List Record) : Bool :=
  match recs with
  | .hdr :: body => validFrom [] body
  | _ => false

/-- Validity of the remainder of the stream from position `p` on, relative
to the sources registered before `p`. -/
def ValidAt (recs : List Record) (p : Nat) : Bool :=
  validFrom (regsUpTo recs p) (recs.drop p)

/-- Index (from the front of `l`) of the first packet record of source
`a`. -/
def scanPktOf (a : Nat) : List Record → Option Nat
  | [] => none
  | r :: rest =>
      if isPktOf a r then some 0 else (scanPktOf a rest).map (· + 1)

/-- Position of the first packet record of source `a` at index `≥ p`. -/
def firstPktOf (recs : List Record) (a p : Nat) : Option Nat :=
  (scanPktOf a (recs.drop p)).map (· + p)

/-- Index (from the front of `l`) of the first packet record. -/
def scanPkt : List Record → Option Nat
  | [] => none
  | r :: rest =>
      if isPkt r then some 0 else (scanPkt rest).map (· + 1)

/-- Position of the first packet record at index `≥ p`. -/
def firstPkt (recs : List Record) (p : Nat) : Option Nat :=
  (scanPkt (recs.drop p)).map (· + p)

/-- Index of the end marker of a valid stream. -/
def endIdx (recs : List Record) : Nat := recs.length - 1

/-- The `FrameInfo` the dispatcher builds for the packet record at `q`. -/
def mkFi (recs : List Record) (q : Nat) : FrameInfo :=
  match recs[q]? with
  | some (.srcPacket a t pl) =>
      let sz := match (regsUpTo recs q)[a]? with
        | some pss =>
            if pss.data_size_bytes ≠ 0 then pss.data_size_bytes else pl.length
        | none => pl.length
      ⟨a, t, sz, cntPkts recs a q, q, q, false⟩
  | _ => ⟨0, 0, 0, 0, 0, 0, false⟩

/-- The canonical "between records" session state of a forward run over a
valid stream: position `p`, index entries accumulated up to `m`, and the
given lock count and window counter. -/
def shapeA (recs : List Record) (p m lock dl : Nat) : ReaderState :=
  { pos := p, inPayload := false, consumed := 0, dataLen := dl,
    seekableFlag := true, sources := regsUpTo recs p,
    next_packet_framenum := countersAt recs p,
    index := idxEntries recs m, lockCount := lock, pipeFd := -1,
    streamOpen := true }

/-- The session state right after `readFrameHeader` succeeded on the
packet record at `q` (cursor at the payload start, nothing else updated
yet). -/
def shapeP (recs : List Record) (q m lock dl : Nat) : ReaderState :=
  { pos := if (payloadAt recs q).isEmpty then q + 1 else q,
    inPayload := !(payloadAt recs q).isEmpty, consumed := 0, dataLen := dl,
    seekableFlag := true, sources := regsUpTo recs q,
    next_packet_framenum := countersAt recs q,
    index := idxEntries recs m, lockCount := lock, pipeFd := -1,
    streamOpen := true }

/-- The session state right after `NextFrame` returned the frame of the
packet record at `q`: counter incremented, index reconciled, data window
declared, cursor at the payload start. -/
def shapeB (recs : List Record) (q lock : Nat) : ReaderState :=
  { pos := if (payloadAt recs q).isEmpty then q + 1 else q,
    inPayload := !(payloadAt recs q).isEmpty, consumed := 0,
    dataLen := (mkFi recs q).size, seekableFlag := true,
    sources := regsUpTo recs (q + 1),
    next_packet_framenum := countersAt recs (q + 1),
    index := idxEntries recs (q + 1), lockCount := lock, pipeFd := -1,
    streamOpen := true }

/-- Reading a stream to exhaustion: call `NextFrame`, drain the returned
frame's window via `Skip`, and repeat until the sentinel; collects the
returned frames. -/
def runReadAux (recs : List Record) (src : Nat) :
    Nat → ReaderState → List FrameInfo × ReaderState
  | 0, s => ([], s)
  | fuel + 1, s =>
      match NextFrame recs src s with
      | (.ok (some fi), s1) =>
          let s2 := if s1.dataLen ≠ 0 then (Skip recs s1.dataLen s1).2 else s1
          let out := runReadAux recs src fuel s2
          (fi :: out.1, out.2)
      | (_, s1) => ([], s1)

/-- `runReadAux` with fuel that always suffices on a valid stream. -/
def runRead (recs : List Record) (src : Nat) (s : ReaderState) :
    List FrameInfo × ReaderState :=
  runReadAux recs src (recs.length + 1) s

/-- Reading forward to the `n`-th frame of `src`: drain and repeat `n`
times, then return the `n`-th matching frame undrained (its payload still
pending), as a caller consuming that frame would. -/
def nthForward (recs : List Record) (src : Nat) :
    Nat → ReaderState → Except Err FrameInfo × ReaderState
  | 0, s =>
      (match NextFrame recs src s with
       | (.ok (some fi), s1) => (.ok fi, s1)
       | (.ok none, s1) => (.error .frameNotInSequence, s1)
       | (.error e, s1) => (.error e, s1))
  | k + 1, s =>
      match NextFrame recs src s with
      | (.ok (some fi), s1) =>
          let s2 := if s1.dataLen ≠ 0 then (Skip recs s1.dataLen s1).2 else s1
          nthForward recs src k s2
      | (.ok none, s1) => (.error .frameNotInSequence, s1)
      | (.error e, s1) => (.error e, s1)

/-- Number of leading source-registration records. -/
def leadAdds : List Record → Nat
  | .addSource _ :: rest => leadAdds rest + 1
  | _ => 0

/-- The record position at which `Open` leaves a valid stream: past the
header and the leading source registrations. -/
def openEnd (recs : List Record) : Nat := 1 + leadAdds (recs.drop 1)

/-! ## Lock-count bookkeeping of the dispatch path -/

theorem ParseNewSource_lockCount (recs : List Record) (s : ReaderState) :
    (ParseNewSource recs s).2.lockCount = s.lockCount := by
  unfold ParseNewSource
  split
  · dsimp only
    split <;> rfl
  · rfl

theorem resolveFrame_lockCount (f q psrc ptime : Nat) (pl : List Nat)
    (hm : Bool) (s : ReaderState) :
    (resolveFrame f q psrc ptime pl hm s).2.lockCount = s.lockCount := by
  unfold resolveFrame
  repeat' split
  all_goals rfl

theorem readPacketPart_lockCount (recs : List Record) (f : Nat)
    (ms : Option Nat) (s : ReaderState) :
    (readPacketPart recs f ms s).2.lockCount = s.lockCount := by
  unfold readPacketPart
  repeat' split
  all_goals first | rfl | apply resolveFrame_lockCount

theorem readFrameHeader_lockCount (recs : List Record) (s : ReaderState) :
    (readFrameHeader recs s).2.lockCount = s.lockCount := by
  unfold readFrameHeader
  split
  · exact readPacketPart_lockCount ..
  · exact readPacketPart_lockCount ..

theorem resolveFrame_counters (f q psrc ptime : Nat) (pl : List Nat)
    (hm : Bool) (s : ReaderState) :
    (resolveFrame f q psrc ptime pl hm s).2.next_packet_framenum
      = s.next_packet_framenum := by
  unfold resolveFrame
  repeat' split
  all_goals rfl

theorem readPacketPart_counters (recs : List Record) (f : Nat)
    (ms : Option Nat) (s : ReaderState) :
    (readPacketPart recs f ms s).2.next_packet_framenum
      = s.next_packet_framenum := by
  unfold readPacketPart
  repeat' split
  all_goals first | rfl | apply resolveFrame_counters

theorem readFrameHeader_counters (recs : List Record) (s : ReaderState) :
    (readFrameHeader recs s).2.next_packet_framenum = s.next_packet_framenum := by
  unfold readFrameHeader
  split
  · exact readPacketPart_counters ..
  · exact readPacketPart_counters ..

theorem resolveFrame_dataLen (f q psrc ptime : Nat) (pl : List Nat)
    (hm : Bool) (s : ReaderState) :
    (resolveFrame f q psrc ptime pl hm s).2.dataLen = s.dataLen := by
  unfold resolveFrame
  repeat' split
  all_goals rfl

theorem readPacketPart_dataLen (recs : List Record) (f : Nat)
    (ms : Option Nat) (s : ReaderState) :
    (readPacketPart recs f ms s).2.dataLen = s.dataLen := by
  unfold readPacketPart
  repeat' split
  all_goals first | rfl | apply resolveFrame_dataLen

theorem readFrameHeader_dataLen (recs : List Record) (s : ReaderState) :
    (readFrameHeader recs s).2.dataLen = s.dataLen := by
  unfold readFrameHeader
  split
  · exact readPacketPart_dataLen ..
  · exact readPacketPart_dataLen ..

theorem ParseIndex_lockCount (recs : List Record) (s : ReaderState) :
    (ParseIndex recs s).lockCount = s.lockCount := by
  unfold ParseIndex
  split <;> rfl

theorem ParseHeader_lockCount (recs : List Record) (s : ReaderState) :
    (ParseHeader recs s).lockCount = s.lockCount := by
  unfold ParseHeader
  split <;> rfl

theorem streamRead_lockCount (recs : List Record) (len : Nat) (s : ReaderState) :
    (streamRead recs len s).2.lockCount = s.lockCount := by
  unfold streamRead
  dsimp only
  repeat' split
  all_goals rfl

theorem nextFrameAux_lockCount (recs : List Record) :
    ∀ (fuel : Nat) (s : ReaderState),
    (nextFrameAux recs fuel s).2.lockCount = s.lockCount := by
  intro fuel
  induction fuel with
  | zero => intro s; rfl
  | succ n ih =>
    intro s
    rw [nextFrameAux]
    cases hip : s.inPayload with
    | true => simpa [ReSync] using ih _
    | false =>
      simp only [Bool.false_eq_true, if_false]
      rcases hrec : recs[s.pos]? with _ | r
      · rfl
      · cases r with
        | addSource pss =>
          rcases hp : ParseNewSource recs s with ⟨res, s'⟩
          have hps : s'.lockCount = s.lockCount := by
            have := ParseNewSource_lockCount recs s
            rw [hp] at this; exact this
          cases res with
          | error e => simpa [hp] using hps
          | ok u => simpa [hp, ih s'] using hps
        | srcJson m =>
          rcases hp : readFrameHeader recs s with ⟨res, s'⟩
          have hps : s'.lockCount = s.lockCount := by
            have := readFrameHeader_lockCount recs s
            rw [hp] at this; exact this
          cases res <;> simpa [hp] using hps
        | srcPacket a t pl =>
          rcases hp : readFrameHeader recs s with ⟨res, s'⟩
          have hps : s'.lockCount = s.lockCount := by
            have := readFrameHeader_lockCount recs s
            rw [hp] at this; exact this
          cases res <;> simpa [hp] using hps
        | sync => simpa [SkipSync] using ih _
        | magic => simpa [SkipSync] using ih _
        | stats entries =>
          have := ih (ParseIndex recs s)
          simpa [ParseIndex_lockCount] using this
        | hdr =>
          have := ih (ParseHeader recs s)
          simpa [ParseHeader_lockCount] using this
        | footer ip => rfl
        | endRec => rfl
        | unknownTag => simpa [ReSync] using ih _


theorem nextFrameDispatch_lockCount (recs : List Record) (s : ReaderState) :
    (nextFrameDispatch recs s).2.lockCount = s.lockCount :=
  nextFrameAux_lockCount recs (recs.length + 1) s

theorem NextFrameLoop_lockCount (recs : List Record) (src : Nat) :
    ∀ (fuel : Nat) (s : ReaderState),
    (NextFrameLoop recs src fuel s).2.lockCount =
      match (NextFrameLoop recs src fuel s).1 with
      | .ok none => s.lockCount - 1
      | _ => s.lockCount := by
  intro fuel
  induction fuel with
  | zero => intro s; rfl
  | succ n ih =>
    intro s
    rw [NextFrameLoop]
    rcases hd : nextFrameDispatch recs s with ⟨res, s'⟩
    have hls : s'.lockCount = s.lockCount := by
      have := nextFrameDispatch_lockCount recs s
      rw [hd] at this; exact this
    rcases res with e | fi
    · simpa using hls
    · rcases fi with _ | fi
      · simp [unlockR, hls]
      · dsimp only
        have hset : ∀ t : ReaderState, t.lockCount = s.lockCount →
            (NextFrameLoop recs src n (streamSkip recs fi.size t)).2.lockCount =
              match (NextFrameLoop recs src n (streamSkip recs fi.size t)).1 with
              | .ok none => s.lockCount - 1
              | _ => s.lockCount := by
          intro t ht
          have h1 : (streamSkip recs fi.size t).lockCount = s.lockCount := by
            have := streamRead_lockCount recs fi.size t
            unfold streamSkip
            rw [this, ht]
          have := ih (streamSkip recs fi.size t)
          rw [h1] at this
          exact this
        split
        · split
          · split
            · simpa [setDataLen, indexAdd] using hls
            · exact hset _ (by simpa [setDataLen, indexAdd] using hls)
          · split
            · split
              · exact hls
              · split
                · simpa [setDataLen] using hls
                · exact hset _ (by simpa [setDataLen] using hls)
            · split
              · simpa [setDataLen] using hls
              · exact hset _ (by simpa [setDataLen] using hls)
        · split
          · simpa [setDataLen] using hls
          · exact hset _ (by simpa [setDataLen] using hls)

/-! ## C6: lock discipline of `NextFrame` -/

/-- **C6** (error handling): `NextFrame` never returns or throws while
holding a lock it acquired, except on the successful return of a frame
matching the requested source: on every modelled exception and on the
"no frame" sentinel the hold count is back to its entry value, and only a
successful matching return retains exactly one extra hold. -/
theorem NextFrame_releases_lock_except_on_match (recs : List Record)
    (src : Nat) (s : ReaderState) :
    (NextFrame recs src s).2.lockCount =
      match (NextFrame recs src s).1 with
      | .ok (some _) => s.lockCount + 1
      | _ => s.lockCount := by
  rw [NextFrame]
  rcases hl : NextFrameLoop recs src (recs.length + 1) (lockR s) with ⟨res, s'⟩
  have hcount := NextFrameLoop_lockCount recs src (recs.length + 1) (lockR s)
  rw [hl] at hcount
  rcases res with e | fi
  · simp only at hcount
    simp [unlockR, hcount, lockR]
  · rcases fi with _ | fi
    · simp only at hcount
      simpa [lockR] using hcount
    · simp only at hcount
      simpa [lockR] using hcount

/-! ## The index-hit path of `Seek` -/

/-- On a seekable medium, with a valid-per-the-code source id, no pending
data window, and the target already indexed, `Seek` takes its direct path:
seek to the indexed position, reset the target source's counter, re-parse
the frame header, and seek to the payload-marker position. -/
theorem Seek_hit_path (recs : List Record) (src n : Nat) (s : ReaderState)
    (hseek : s.seekableFlag = true) (hsrc : ¬ src > s.sources.length)
    (hdl : s.dataLen = 0) (hhit : indexHas s.index src n = true) :
    Seek recs src n s =
      (let s4 : ReaderState :=
        { seekg (indexPosition s.index src n) (lockR s) with
          next_packet_framenum := s.next_packet_framenum.set src n }
      match readFrameHeader recs s4 with
      | (.error e, s5) => (.error e, unlockR s5)
      | (.ok fi, s5) => (.ok fi, unlockR (seekg fi.packet_streampos s5))) := by
  rw [Seek]
  have h1 : (lockR s).seekableFlag = true := hseek
  have h2 : ¬ src > (lockR s).sources.length := hsrc
  have h3 : (lockR s).dataLen = 0 := hdl
  have h4 : indexHas (lockR s).index src n = true := hhit
  simp only [h1, if_true, h2, if_false, h3, ne_eq, not_true_eq_false,
    Bool.not_eq_true]
  rw [seekScan]
  simp only [h4, if_true, hdl]
  simp [seekg, lockR, unlockR]

/-! ## C8: `Seek` on an index hit resets only the target counter -/

/-- **C8** (frame effect): when `(src, n)` is already present in the packet
index and no payload window is pending, `Seek(src, n)` sets source `src`'s
next-sequence counter to `n` and leaves every other source's counter
unchanged. -/
theorem Seek_hit_resets_only_target_counter (recs : List Record)
    (src n : Nat) (s : ReaderState)
    (hseek : s.seekableFlag = true) (hsrc : src ≤ s.sources.length)
    (hdl : s.dataLen = 0) (hhit : indexHas s.index src n = true)
    (hlen : src < s.next_packet_framenum.length) :
    (Seek recs src n s).2.next_packet_framenum[src]? = some n ∧
    ∀ a, a ≠ src →
      (Seek recs src n s).2.next_packet_framenum[a]? =
        s.next_packet_framenum[a]? := by
  rw [Seek_hit_path recs src n s hseek (by omega) hdl hhit]
  have key : ∀ s5 : ReaderState,
      s5.next_packet_framenum = s.next_packet_framenum.set src n →
      s5.next_packet_framenum[src]? = some n ∧
      ∀ a, a ≠ src → s5.next_packet_framenum[a]? = s.next_packet_framenum[a]? := by
    intro s5 h5
    constructor
    · rw [h5]
      exact List.getElem?_set_self hlen
    · intro a ha
      rw [h5]
      exact List.getElem?_set_ne (fun h => ha h.symm)
  dsimp only
  split
  next e s5 heq =>
    have hc : s5.next_packet_framenum = s.next_packet_framenum.set src n := by
      have h := congrArg (fun p : Except Err FrameInfo × ReaderState =>
        p.2.next_packet_framenum) heq
      simpa [readFrameHeader_counters] using h.symm
    simpa [unlockR] using key s5 hc
  next fi s5 heq =>
    have hc : s5.next_packet_framenum = s.next_packet_framenum.set src n := by
      have h := congrArg (fun p : Except Err FrameInfo × ReaderState =>
        p.2.next_packet_framenum) heq
      simpa [readFrameHeader_counters] using h.symm
    simpa [unlockR, seekg] using key s5 hc

/-! ## C10: no payload window after an index-hit `Seek` -/

/-- **C10** (amended, error handling): after a successful `Seek(src, n)`
whose target was already present in the packet index when called (and with
no payload window pending at entry), no payload window is active — `Seek`
re-parses the header and positions the medium at the payload marker but
never declares a data window — so any `ReadRaw` or `Skip` issued before
the next `NextFrame` raises the `InvalidState` error instead of returning
the sought frame's payload bytes. -/
theorem Seek_hit_leaves_no_window (recs : List Record) (src n : Nat)
    (s : ReaderState) (fi : FrameInfo)
    (hseek : s.seekableFlag = true) (hsrc : src ≤ s.sources.length)
    (hdl : s.dataLen = 0) (hhit : indexHas s.index src n = true)
    (hok : (Seek recs src n s).1 = .ok fi) :
    (Seek recs src n s).2.dataLen = 0 ∧
    (∀ len, (ReadRaw recs len (Seek recs src n s).2).1 = .error .noDataBlock) ∧
    (∀ len, (Skip recs len (Seek recs src n s).2).1 = .error .noDataBlock) := by
  have hdl0 : (Seek recs src n s).2.dataLen = 0 := by
    rw [Seek_hit_path recs src n s hseek (by omega) hdl hhit]
    dsimp only
    split
    next e s5 heq =>
      have h := congrArg (fun p : Except Err FrameInfo × ReaderState =>
        p.2.dataLen) heq
      simp only [readFrameHeader_dataLen] at h
      simpa [unlockR, seekg, lockR, hdl] using h.symm
    next fi' s5 heq =>
      have h := congrArg (fun p : Except Err FrameInfo × ReaderState =>
        p.2.dataLen) heq
      simp only [readFrameHeader_dataLen] at h
      simpa [unlockR, seekg, lockR, hdl] using h.symm
  refine ⟨hdl0, fun len => ?_, fun len => ?_⟩
  · rw [ReadRaw, hdl0]
    simp
  · rw [Skip, hdl0]
    simp

/-! ## C7: clamped payload consumption -/

/-- **C7** (safety): with an active payload window of `r > 0` bytes
remaining over the current packet's payload, `ReadRaw(len)` and
`Skip(len)` clamp the request to at most `r` (a warning, not an error),
consume only bytes of the current payload (never the next record's), and
shrink the window by exactly the amount consumed. -/
theorem ReadRaw_Skip_clamp_to_window (recs : List Record) (len : Nat)
    (s : ReaderState) (r a t : Nat) (pl : List Nat)
    (hdl : s.dataLen = r) (hr : 0 < r) (hip : s.inPayload = true)
    (hrec : recs[s.pos]? = some (.srcPacket a t pl)) :
    (ReadRaw recs len s).1 = .ok ((pl.drop s.consumed).take (min len r)) ∧
    (ReadRaw recs len s).2.dataLen = r - min len r ∧
    (Skip recs len s).1 = .ok (min len r) ∧
    (Skip recs len s).2.dataLen = r - min len r ∧
    min len r ≤ r := by
  subst hdl
  have h0 : ¬ s.dataLen = 0 := by omega
  have hlen' : (if s.dataLen < len then s.dataLen else len) = min len s.dataLen := by
    split <;> omega
  rw [ReadRaw, Skip]
  simp only [h0, if_false, hlen', streamSkip]
  rw [streamRead]
  simp only [hip, if_true, hrec]
  constructor
  · split <;> split <;> rfl
  · constructor
    · split <;> split <;> simp [unlockR]
    · constructor
      · split <;> split <;> rfl
      · constructor
        · split <;> split <;> simp [unlockR]
        · omega

/-! ## Additional concrete session states -/

/-- A session state whose packet index already holds `(0, 1) ↦ 3` for
`recsTwo`, with no pending window: the hit path of `Seek`. -/
def seekHitState : ReaderState :=
  { pos := 2, inPayload := false, consumed := 0, dataLen := 0,
    seekableFlag := true, sources := [srcDesc0], next_packet_framenum := [7],
    index := [(0, 1, 3)], lockCount := 0, pipeFd := -1, streamOpen := true }

/-- The state on `recsTwo` after draining frame 0 and dispatching frame 1
of source 0 by reading forward. -/
def fwdTo1 : ReaderState :=
  (NextFrame recsTwo 0 (Skip recsTwo 3 (NextFrame recsTwo 0 openedTwo).2).2).2

/-- The state on `recsReReg` just before its mid-stream re-registration
record: frame 0 has been dispatched and drained. -/
def reRegState : ReaderState :=
  (Skip recsReReg 1 (NextFrame recsReReg 0 (Open recsReReg true).2).2).2

/-- A session owning pipe file descriptor 7 (as acquired by the
pipe-tailing probe in `GoodToRead`). -/
def pipeSession : ReaderState := { openedTwo with pipeFd := 7 }

/-! ## C3: a re-registered source is a format error, not housekeeping -/

/-- **C3** (counterexample): on a stream whose fourth record re-registers
source id 0, the dispatcher does not advance past the record and dispatch
the following frame (sequence 1 of source 0 at position 4); it raises the
id-mismatch format error. -/
theorem NextFrame_reregistered_source_counterexample :
    (NextFrame recsReReg 0 reRegState).1 = .error .idMismatch ∧
    (NextFrame recsReReg 0 reRegState).1 ≠ .ok (some ⟨0, 6, 1, 1, 4, 4, false⟩) := by
  decide

/-- **C3** (amended, error handling): when the Frame Dispatcher peeks a
source-registration record whose descriptor id differs from the current
registry size — in particular a re-registration of an existing source id —
`NextFrame` fails with the id-mismatch format error rather than advancing
past it. -/
theorem NextFrame_reregistered_source_errors (recs : List Record)
    (src : Nat) (s : ReaderState) (pss : PacketStreamSource)
    (hrec : recs[s.pos]? = some (.addSource pss))
    (hip : s.inPayload = false)
    (hid : pss.id ≠ s.sources.length) :
    (NextFrame recs src s).1 = .error .idMismatch := by
  have hlockRec : recs[(lockR s).pos]? = some (.addSource pss) := hrec
  have hlockIp : (lockR s).inPayload = false := hip
  have hne : ({ lockR s with pos := (lockR s).pos + 1 } :
      ReaderState).sources.length ≠ pss.id := fun h => hid h.symm
  rw [NextFrame, NextFrameLoop, nextFrameDispatch, nextFrameAux]
  rw [ParseNewSource]
  simp only [hlockIp, Bool.false_eq_true, if_false, hlockRec]
  rw [if_pos hne]

/-- Witness for `NextFrame_reregistered_source_errors` at the concrete
re-registration stream. -/
theorem NextFrame_reregistered_source_errors_witness :
    (NextFrame recsReReg 0 reRegState).1 = .error .idMismatch := by
  have h := NextFrame_reregistered_source_errors recsReReg 0 reRegState
    srcDesc0 (by decide) (by decide) (by decide)
  exact h

/-! ## C4: the source-id guard of `Seek` is off by one -/

/-- **C4** (code-bug evidence): `Seek` checks `src > _sources.size()`, so
the invalid source id `src = _sources.size()` (here 1, with one registered
source) slips past the `InvalidArgument` guard and instead scans to
end-of-stream, failing with `OutOfRange`; `src = size + 1` is rejected as
claimed, and a non-seekable medium yields `UnsupportedOperation`. -/
theorem Seek_source_id_guard_off_by_one :
    (Seek recsTwo 1 0 openedTwo).1 = .error .frameNotInSequence ∧
    (Seek recsTwo 1 0 openedTwo).1 ≠ .error .invalidSourceId ∧
    (Seek recsTwo 2 0 openedTwo).1 = .error .invalidSourceId ∧
    (Seek recsTwo 0 0 (Open recsTwo false).2).1 = .error .notSeekable := by
  decide

/-! ## C5: the sync-continuation check short-circuits -/

/-- **C5** (code-bug evidence): `SkipSync`'s byte check
`get() != 'G' && get() != 'O'` short-circuits: on the well-formed
continuation `"GO"` (`71, 79`) only the `'G'` is consumed, leaving `'O'`
in the stream; a malformed continuation whose second byte is `'O'` is
accepted silently; only when both bytes mismatch does it raise. -/
theorem skipSyncBytes_shortcircuit :
    skipSyncBytes [71, 79, 42] = .ok (1, [79, 42]) ∧
    skipSyncBytes [88, 79, 42] = .ok (2, [42]) ∧
    skipSyncBytes [88, 88, 42] = .error .unknownPacketType := by
  decide

/-! ## C9: `Close` is not idempotent on the pipe descriptor -/

/-- **C9** (code-bug evidence): `Close` never resets `_pipe_fd` to `-1`
after issuing `close` on it, so after a first `Close` the session still
records descriptor 7 as owned and a second `Close` issues the OS
`close(7)` again; the remaining state (closed medium, cleared registry)
is unchanged by the second call. -/
theorem Close_double_closes_pipe_fd :
    (Close pipeSession).2 = [7] ∧
    (Close pipeSession).1.pipeFd = 7 ∧
    (Close (Close pipeSession).1).2 = [7] ∧
    (Close (Close pipeSession).1).1 = (Close pipeSession).1 := by
  decide

/-! ## C10 / C1: what a `Seek` leaves behind -/

/-- **C10** (counterexample): a successful `Seek(0, 1)` that had to read
forward to populate the index returns with the data window declared by its
last internal `NextFrame` still active (`_data_len = 3`), so a `ReadRaw`
issued immediately afterwards does not raise the `InvalidState` error. -/
theorem Seek_scan_leaves_window_counterexample :
    (Seek recsTwo 0 1 openedTwo).1 = .ok ⟨0, 6, 3, 1, 3, 3, false⟩ ∧
    (Seek recsTwo 0 1 openedTwo).2.dataLen = 3 ∧
    (ReadRaw recsTwo 3 (Seek recsTwo 0 1 openedTwo).2).1 ≠ .error .noDataBlock := by
  decide

/-- **C1** (counterexample): reading forward to the 1st frame of source 0
and consuming it yields `[4,5,6]`, but `Seek(0, 1)` followed directly by
`ReadRaw` does not reproduce those bytes: after the read-forward `Seek`
the medium sits at the payload marker, not the payload, and after an
index-hit `Seek` (no pending window) `ReadRaw` raises `InvalidState`. -/
theorem ReadRaw_directly_after_Seek_not_byte_identical :
    (ReadRaw recsTwo 3 fwdTo1).1 = .ok [4, 5, 6] ∧
    (ReadRaw recsTwo 3 (Seek recsTwo 0 1 openedTwo).2).1 ≠ .ok [4, 5, 6] ∧
    (ReadRaw recsTwo 3 (Seek recsTwo 0 1 seekHitState).2).1 = .error .noDataBlock := by
  decide

/-! ## Witnesses for the hypothesis-bearing theorems above -/

/-- Witness for `ReadRaw_Skip_clamp_to_window`: an oversized request of 5
bytes against a 3-byte window is clamped to 3. -/
theorem ReadRaw_Skip_clamp_to_window_witness :
    (ReadRaw recsTwo 5 (NextFrame recsTwo 0 openedTwo).2).1 = .ok [1, 2, 3] ∧
    (ReadRaw recsTwo 5 (NextFrame recsTwo 0 openedTwo).2).2.dataLen = 0 ∧
    (Skip recsTwo 5 (NextFrame recsTwo 0 openedTwo).2).1 = .ok 3 ∧
    (Skip recsTwo 5 (NextFrame recsTwo 0 openedTwo).2).2.dataLen = 0 := by
  have h := ReadRaw_Skip_clamp_to_window recsTwo 5
    (NextFrame recsTwo 0 openedTwo).2 3 0 5 [1, 2, 3]
    (by decide) (by decide) (by decide) (by decide)
  revert h
  decide

/-- Witness for `Seek_hit_resets_only_target_counter` on `seekHitState`
(counter 7 for source 0 is reset to 1; a hypothetical source 1 is
untouched). -/
theorem Seek_hit_resets_only_target_counter_witness :
    (Seek recsTwo 0 1 seekHitState).2.next_packet_framenum[0]? = some 1 ∧
    (Seek recsTwo 0 1 seekHitState).2.next_packet_framenum[1]? =
      seekHitState.next_packet_framenum[1]? := by
  have h := Seek_hit_resets_only_target_counter recsTwo 0 1 seekHitState
    (by decide) (by decide) (by decide) (by decide) (by decide)
  exact ⟨h.1, h.2 1 (by decide)⟩

/-- Witness for `Seek_hit_leaves_no_window` on `seekHitState`. -/
theorem Seek_hit_leaves_no_window_witness :
    (Seek recsTwo 0 1 seekHitState).2.dataLen = 0 ∧
    (ReadRaw recsTwo 3 (Seek recsTwo 0 1 seekHitState).2).1 = .error .noDataBlock ∧
    (Skip recsTwo 3 (Seek recsTwo 0 1 seekHitState).2).1 = .error .noDataBlock := by
  have h := Seek_hit_leaves_no_window recsTwo 0 1 seekHitState
    ⟨0, 6, 3, 1, 3, 3, false⟩ (by decide) (by decide) (by decide) (by decide)
    (by decide)
  exact ⟨h.1, h.2.1 3, h.2.2 3⟩

/-! ## Counting lemmas for the reference quantities -/

theorem drop_eq_cons_of_getElem {recs : List Record} {p : Nat} {r : Record}
    (h : recs[p]? = some r) : recs.drop p = r :: recs.drop (p + 1) := by
  obtain ⟨hlt, he⟩ := List.getElem?_eq_some_iff.mp h
  rw [List.drop_eq_getElem_cons hlt, he]

theorem regsUpTo_succ {recs : List Record} {p : Nat} {r : Record}
    (h : recs[p]? = some r) :
    regsUpTo recs (p + 1) = regsUpTo recs p ++ regOf r := by
  unfold regsUpTo
  rw [List.take_succ, List.filterMap_append _ _ _, h]
  cases r <;> rfl

theorem cntPkts_succ {recs : List Record} {p : Nat} {r : Record} (a : Nat)
    (h : recs[p]? = some r) :
    cntPkts recs a (p + 1) = cntPkts recs a p +
      (if isPktOf a r then 1 else 0) := by
  unfold cntPkts
  rw [List.take_succ, List.filter_append _ _, List.length_append, h]
  cases hb : isPktOf a r <;> simp [hb]

theorem cntPkts_stable {recs : List Record} {p : Nat} (a : Nat)
    (h : recs[p]? = none) : cntPkts recs a (p + 1) = cntPkts recs a p := by
  unfold cntPkts
  rw [List.take_succ, h]
  simp

theorem cntPkts_zero (recs : List Record) (a : Nat) : cntPkts recs a 0 = 0 := rfl

theorem cntPkts_mono (recs : List Record) (a : Nat) {p q : Nat} (h : p ≤ q) :
    cntPkts recs a p ≤ cntPkts recs a q := by
  unfold cntPkts
  obtain ⟨k, rfl⟩ := Nat.exists_eq_add_of_le h
  rw [List.take_add, List.filter_append _ _, List.length_append]
  omega

theorem idxEntries_succ (recs : List Record) (m : Nat) :
    idxEntries recs (m + 1) = idxEntries recs m ++
      (match recs[m]? with
       | some (.srcPacket a _ _) => [(a, cntPkts recs a m, m)]
       | _ => []) := by
  unfold idxEntries
  rw [List.range_succ m, List.filterMap_append _ _ _]
  congr 1
  rcases h : recs[m]? with _ | r
  · simp [h]
  · cases r <;> simp [h]

theorem countersAt_length (recs : List Record) (p : Nat) :
    (countersAt recs p).length = (regsUpTo recs p).length := by
  simp [countersAt]

theorem countersAt_getElem? (recs : List Record) (p a : Nat) :
    (countersAt recs p)[a]? =
      if a < (regsUpTo recs p).length then some (cntPkts recs a p)
      else none := by
  unfold countersAt
  rw [List.getElem?_map _ _ _]
  by_cases h : a < (regsUpTo recs p).length
  · rw [List.getElem?_range h]
    simp [h]
  · rw [if_neg h]
    have : (List.range (regsUpTo recs p).length)[a]? = none := by
      rw [List.getElem?_eq_none_iff]
      simpa using Nat.le_of_not_lt h
    rw [this]
    rfl

/-! ## Structure of valid streams -/

theorem validFrom_ne_nil {srcs : List PacketStreamSource} {l : List Record}
    (h : validFrom srcs l = true) : l ≠ [] := by
  intro he
  rw [he] at h
  simp [validFrom] at h

theorem ValidAt_getElem {recs : List Record} {p : Nat}
    (h : ValidAt recs p = true) : ∃ r, recs[p]? = some r := by
  rcases hd : recs[p]? with _ | r
  · exfalso
    unfold ValidAt at h
    rw [List.drop_eq_nil_of_le (List.getElem?_eq_none_iff.mp hd)] at h
    simp [validFrom] at h
  · exact ⟨r, rfl⟩

theorem ValidAt_addSource {recs : List Record} {p : Nat}
    {pss : PacketStreamSource}
    (h : ValidAt recs p = true) (hr : recs[p]? = some (.addSource pss)) :
    pss.id = (regsUpTo recs p).length ∧ ValidAt recs (p + 1) = true := by
  unfold ValidAt at h ⊢
  rw [drop_eq_cons_of_getElem hr, validFrom] at h
  rw [Bool.and_eq_true, beq_iff_eq] at h
  refine ⟨h.1, ?_⟩
  rw [regsUpTo_succ hr]
  exact h.2

theorem ValidAt_srcPacket {recs : List Record} {p a t : Nat} {pl : List Nat}
    (h : ValidAt recs p = true) (hr : recs[p]? = some (.srcPacket a t pl)) :
    (∃ pss, (regsUpTo recs p)[a]? = some pss ∧
       (pss.data_size_bytes = 0 ∨ pl.length = pss.data_size_bytes)) ∧
    ValidAt recs (p + 1) = true := by
  unfold ValidAt at h ⊢
  rw [drop_eq_cons_of_getElem hr, validFrom] at h
  rw [Bool.and_eq_true] at h
  constructor
  · rcases hs : (regsUpTo recs p)[a]? with _ | pss
    · rw [hs] at h
      exact absurd h.1 (by simp)
    · refine ⟨pss, rfl, ?_⟩
      rw [hs] at h
      have := h.1
      rw [Bool.or_eq_true, beq_iff_eq, beq_iff_eq] at this
      tauto
  · rw [regsUpTo_succ hr]
    simpa [regOf] using h.2

theorem ValidAt_endRec {recs : List Record} {p : Nat}
    (h : ValidAt recs p = true) (hr : recs[p]? = some .endRec) :
    recs.length = p + 1 := by
  unfold ValidAt at h
  rw [drop_eq_cons_of_getElem hr, validFrom] at h
  have hnil : recs.drop (p + 1) = [] := by
    simpa [List.isEmpty_iff] using h
  have h1 : recs.length ≤ p + 1 := by
    by_contra hx
    have : recs.drop (p + 1) ≠ [] := by
      apply List.ne_nil_of_length_pos
      rw [List.length_drop]
      omega
    exact this hnil
  have h2 : p < recs.length := (List.getElem?_eq_some_iff.mp hr).1
  omega

theorem ValidAt_shapes {recs : List Record} {p : Nat} {r : Record}
    (h : ValidAt recs p = true) (hr : recs[p]? = some r) :
    (∃ pss, r = .addSource pss) ∨ (∃ a t pl, r = .srcPacket a t pl) ∨
    r = .endRec := by
  unfold ValidAt at h
  rw [drop_eq_cons_of_getElem hr] at h
  cases r <;> simp [validFrom] at h <;> simp

theorem ValidStream_hdr {recs : List Record} (h : ValidStream recs = true) :
    recs[0]? = some .hdr ∧ ValidAt recs 1 = true := by
  rcases recs with _ | ⟨r, body⟩
  · simp [ValidStream] at h
  · cases r
    case hdr =>
      refine ⟨by simp, ?_⟩
      unfold ValidAt regsUpTo
      simpa [ValidStream] using h
    all_goals simp [ValidStream] at h

theorem ValidAt_chain {recs : List Record} (hv : ValidStream recs = true) :
    ∀ p, 1 ≤ p → p ≤ endIdx recs → ValidAt recs p = true := by
  intro p h1 h2
  induction p with
  | zero => omega
  | succ n ih =>
    rcases Nat.lt_or_ge 0 n with hn | hn
    · have hvn : ValidAt recs n = true := ih (by omega) (by omega)
      obtain ⟨r, hr⟩ := ValidAt_getElem hvn
      rcases ValidAt_shapes hvn hr with ⟨pss, rfl⟩ | ⟨a, t, pl, rfl⟩ | rfl
      · exact (ValidAt_addSource hvn hr).2
      · exact (ValidAt_srcPacket hvn hr).2
      · exfalso
        have := ValidAt_endRec hvn hr
        unfold endIdx at h2
        omega
    · have : n = 0 := by omega
      subst this
      exact (ValidStream_hdr hv).2

theorem ValidStream_length {recs : List Record} (hv : ValidStream recs = true) :
    2 ≤ recs.length := by
  have h1 := (ValidStream_hdr hv).2
  unfold ValidAt at h1
  have h2 := validFrom_ne_nil h1
  have h3 : recs.length ≥ 1 := by
    rcases recs with _ | ⟨r, body⟩
    · simp [ValidStream] at hv
    · simp
  by_contra hx
  have : recs.drop 1 = [] := List.drop_eq_nil_of_le (by omega)
  exact h2 this

/-! ## Counter evolution along a valid stream -/

theorem ValidAt_le_endIdx {recs : List Record} {p : Nat}
    (h : ValidAt recs p = true) : p ≤ endIdx recs := by
  obtain ⟨r, hr⟩ := ValidAt_getElem h
  have := (List.getElem?_eq_some_iff.mp hr).1
  unfold endIdx
  omega

theorem cnt_unregistered {recs : List Record} (hv : ValidStream recs = true) :
    ∀ p, p ≤ endIdx recs → ∀ a, (regsUpTo recs p).length ≤ a →
    cntPkts recs a p = 0 := by
  intro p
  induction p with
  | zero => intro _ a _; rfl
  | succ n ih =>
    intro hle a ha
    rcases Nat.lt_or_ge 0 n with hn | hn
    · have hvn : ValidAt recs n = true :=
        ValidAt_chain hv n (by omega) (by omega)
      obtain ⟨r, hr⟩ := ValidAt_getElem hvn
      rcases ValidAt_shapes hvn hr with ⟨pss, rfl⟩ | ⟨b, t, pl, rfl⟩ | rfl
      · have hreg := regsUpTo_succ hr
        have hlen : (regsUpTo recs (n + 1)).length =
            (regsUpTo recs n).length + 1 := by
          rw [hreg]; simp [regOf]
        rw [cntPkts_succ a hr]
        have : cntPkts recs a n = 0 := ih (by omega) a (by omega)
        simp [isPktOf, this]
      · obtain ⟨⟨pss, hps, _⟩, _⟩ := ValidAt_srcPacket hvn hr
        have hb : b < (regsUpTo recs n).length :=
          (List.getElem?_eq_some_iff.mp hps).1
        have hlen : (regsUpTo recs (n + 1)).length =
            (regsUpTo recs n).length := by
          rw [regsUpTo_succ hr]; simp [regOf]
        rw [cntPkts_succ a hr]
        have h0 : cntPkts recs a n = 0 := ih (by omega) a (by omega)
        have hne : (b == a) = false := by
          rw [hlen] at ha
          exact beq_eq_false_iff_ne.mpr (by omega)
        simp [isPktOf, hne, h0]
      · have := ValidAt_endRec hvn hr
        unfold endIdx at hle
        omega
    · have hn0 : n = 0 := by omega
      subst hn0
      have hhdr := (ValidStream_hdr hv).1
      rw [cntPkts_succ a hhdr]
      simp [isPktOf, cntPkts_zero]

theorem countersAt_addSource {recs : List Record} {p : Nat}
    {pss : PacketStreamSource} (hv : ValidStream recs = true)
    (h : ValidAt recs p = true) (hr : recs[p]? = some (.addSource pss)) :
    countersAt recs (p + 1) = countersAt recs p ++ [0] := by
  have hreg : regsUpTo recs (p + 1) = regsUpTo recs p ++ [pss] := by
    rw [regsUpTo_succ hr]; rfl
  unfold countersAt
  rw [hreg, List.length_append, List.length_singleton, List.range_succ,
    List.map_append]
  congr 1
  · apply List.map_eq_map_iff.mpr
    intro a _
    rw [cntPkts_succ a hr]
    simp [isPktOf]
  · have h0 : cntPkts recs (regsUpTo recs p).length p = 0 :=
      cnt_unregistered hv p (ValidAt_le_endIdx h) _ (le_refl _)
    have h1 : cntPkts recs (regsUpTo recs p).length (p + 1) = 0 := by
      rw [cntPkts_succ _ hr]
      simp [isPktOf, h0]
    simp [h1]

theorem countersAt_srcPacket {recs : List Record} {p a t : Nat}
    {pl : List Nat}
    (h : ValidAt recs p = true) (hr : recs[p]? = some (.srcPacket a t pl)) :
    countersAt recs (p + 1) =
      (countersAt recs p).set a (cntPkts recs a p + 1) := by
  obtain ⟨⟨pss, hps, _⟩, _⟩ := ValidAt_srcPacket h hr
  have ha : a < (regsUpTo recs p).length :=
    (List.getElem?_eq_some_iff.mp hps).1
  have hreg : regsUpTo recs (p + 1) = regsUpTo recs p := by
    rw [regsUpTo_succ hr]; simp [regOf]
  apply List.ext_getElem?_iff.mpr
  intro i
  rw [countersAt_getElem?, hreg]
  by_cases hia : i = a
  · subst hia
    have hlen : i < (countersAt recs p).length := by
      rw [countersAt_length]; exact ha
    rw [if_pos ha, List.getElem?_set_self hlen, cntPkts_succ i hr]
    simp [isPktOf]
  · rw [List.getElem?_set_ne (fun hx => hia hx.symm), countersAt_getElem?]
    rw [cntPkts_succ i hr]
    have hne : (a == i) = false := beq_eq_false_iff_ne.mpr (fun hx => hia hx.symm)
    simp [isPktOf, hne]

/-! ## Locating the next packet record -/

theorem firstPkt_none {recs : List Record} {p : Nat}
    (h : recs[p]? = none) : firstPkt recs p = none := by
  unfold firstPkt
  rw [List.drop_eq_nil_of_le (List.getElem?_eq_none_iff.mp h)]
  rfl

theorem firstPkt_step {recs : List Record} {p : Nat} {r : Record}
    (h : recs[p]? = some r) (hr : isPkt r = false) :
    firstPkt recs p = firstPkt recs (p + 1) := by
  unfold firstPkt
  rw [drop_eq_cons_of_getElem h, scanPkt, if_neg (by simp [hr])]
  rw [Option.map_map]
  congr 1
  funext x
  simp only [Function.comp]
  omega

theorem firstPkt_here {recs : List Record} {p : Nat} {r : Record}
    (h : recs[p]? = some r) (hr : isPkt r = true) :
    firstPkt recs p = some p := by
  unfold firstPkt
  rw [drop_eq_cons_of_getElem h, scanPkt, if_pos hr]
  simp

theorem firstPktOf_none {recs : List Record} {a p : Nat}
    (h : recs[p]? = none) : firstPktOf recs a p = none := by
  unfold firstPktOf
  rw [List.drop_eq_nil_of_le (List.getElem?_eq_none_iff.mp h)]
  rfl

theorem firstPktOf_step {recs : List Record} {a p : Nat} {r : Record}
    (h : recs[p]? = some r) (hr : isPktOf a r = false) :
    firstPktOf recs a p = firstPktOf recs a (p + 1) := by
  unfold firstPktOf
  rw [drop_eq_cons_of_getElem h, scanPktOf, if_neg (by simp [hr])]
  rw [Option.map_map]
  congr 1
  funext x
  simp only [Function.comp]
  omega

theorem firstPktOf_here {recs : List Record} {a p : Nat} {r : Record}
    (h : recs[p]? = some r) (hr : isPktOf a r = true) :
    firstPktOf recs a p = some p := by
  unfold firstPktOf
  rw [drop_eq_cons_of_getElem h, scanPktOf, if_pos hr]
  simp

theorem scanPkt_not_before {l : List Record} :
    ∀ {j : Nat}, scanPkt l = some j →
    ∀ k, k < j → ∃ r, l[k]? = some r ∧ isPkt r = false := by
  induction l with
  | nil => intro j h; simp [scanPkt] at h
  | cons r rest ih =>
    intro j h k hk
    rw [scanPkt] at h
    by_cases hr : isPkt r = true
    · rw [if_pos hr] at h
      cases h
      omega
    · rw [if_neg hr] at h
      rcases hs : scanPkt rest with _ | j'
      · rw [hs] at h; simp [Option.map] at h
      · rw [hs] at h
        rw [show ∀ (f : Nat → Nat) (x : Nat), (some x).map f = some (f x) from fun _ _ => rfl] at h
        cases h
        rcases k with _ | k'
        · exact ⟨r, by simp, by simpa using hr⟩
        · obtain ⟨r', hr', hp'⟩ := ih hs k' (by omega)
          exact ⟨r', by simpa using hr', hp'⟩

theorem scanPkt_at {l : List Record} :
    ∀ {j : Nat}, scanPkt l = some j →
    ∃ r, l[j]? = some r ∧ isPkt r = true := by
  induction l with
  | nil => intro j h; simp [scanPkt] at h
  | cons r rest ih =>
    intro j h
    rw [scanPkt] at h
    by_cases hr : isPkt r = true
    · rw [if_pos hr] at h
      cases h
      exact ⟨r, by simp, hr⟩
    · rw [if_neg hr] at h
      rcases hs : scanPkt rest with _ | j'
      · rw [hs] at h; simp [Option.map] at h
      · rw [hs] at h
        rw [show ∀ (f : Nat → Nat) (x : Nat), (some x).map f = some (f x) from fun _ _ => rfl] at h
        cases h
        obtain ⟨r', hr', hp'⟩ := ih hs
        exact ⟨r', by simpa using hr', hp'⟩

theorem firstPkt_not_between {recs : List Record} {p q : Nat}
    (h : firstPkt recs p = some q) :
    p ≤ q ∧ ∀ i, p ≤ i → i < q → ∃ r, recs[i]? = some r ∧ isPkt r = false := by
  unfold firstPkt at h
  rcases hs : scanPkt (recs.drop p) with _ | j
  · rw [hs] at h; simp [Option.map] at h
  · rw [hs] at h
    rw [show ∀ (f : Nat → Nat) (x : Nat), (some x).map f = some (f x) from fun _ _ => rfl] at h
    cases h
    refine ⟨by omega, fun i hpi hiq => ?_⟩
    obtain ⟨r, hr, hp⟩ := scanPkt_not_before hs (i - p) (by omega)
    rw [List.getElem?_drop] at hr
    exact ⟨r, by rwa [Nat.add_sub_cancel' hpi] at hr, hp⟩

theorem firstPkt_is_pkt {recs : List Record} {p q : Nat}
    (h : firstPkt recs p = some q) :
    ∃ r, recs[q]? = some r ∧ isPkt r = true := by
  unfold firstPkt at h
  rcases hs : scanPkt (recs.drop p) with _ | j
  · rw [hs] at h; simp [Option.map] at h
  · rw [hs] at h
    rw [show ∀ (f : Nat → Nat) (x : Nat), (some x).map f = some (f x) from fun _ _ => rfl] at h
    cases h
    obtain ⟨r, hr, hp⟩ := scanPkt_at hs
    rw [List.getElem?_drop] at hr
    exact ⟨r, by rwa [Nat.add_comm] at hr, hp⟩

/-! ## Quantities are stable across packet-free gaps -/

theorem cntPkts_congr_gap {recs : List Record} {a : Nat} :
    ∀ {p q : Nat}, p ≤ q →
    (∀ i, p ≤ i → i < q → ∃ r, recs[i]? = some r ∧ isPkt r = false) →
    cntPkts recs a q = cntPkts recs a p := by
  intro p q
  induction q with
  | zero =>
    intro h _
    have : p = 0 := by omega
    rw [this]
  | succ n ih =>
    intro h hgap
    rcases Nat.lt_or_ge p (n + 1) with hlt | hge
    · have h1 : cntPkts recs a n = cntPkts recs a p :=
        ih (by omega) (fun i h1 h2 => hgap i h1 (by omega))
      obtain ⟨r, hr, hp⟩ := hgap n (by omega) (by omega)
      rw [cntPkts_succ a hr, h1]
      have : isPktOf a r = false := by
        cases r <;> simp_all [isPkt, isPktOf]
      simp [this]
    · have : p = n + 1 := by omega
      rw [this]

theorem idxEntries_congr_gap {recs : List Record} :
    ∀ {p q : Nat}, p ≤ q →
    (∀ i, p ≤ i → i < q → ∃ r, recs[i]? = some r ∧ isPkt r = false) →
    idxEntries recs q = idxEntries recs p := by
  intro p q
  induction q with
  | zero =>
    intro h _
    have : p = 0 := by omega
    rw [this]
  | succ n ih =>
    intro h hgap
    rcases Nat.lt_or_ge p (n + 1) with hlt | hge
    · have h1 : idxEntries recs n = idxEntries recs p :=
        ih (by omega) (fun i h1 h2 => hgap i h1 (by omega))
      obtain ⟨r, hr, hp⟩ := hgap n (by omega) (by omega)
      rw [idxEntries_succ, hr, h1]
      cases r <;> simp_all [isPkt]
    · have : p = n + 1 := by omega
      rw [this]

/-! ## Looking up the accumulated index -/

theorem idxEntries_mem {recs : List Record} {m : Nat}
    {e : Nat × Nat × Nat} (h : e ∈ idxEntries recs m) :
    ∃ i, i < m ∧ ∃ t pl, recs[i]? = some (.srcPacket e.1 t pl) ∧
      e.2.1 = cntPkts recs e.1 i ∧ e.2.2 = i := by
  obtain ⟨i, hi, hf⟩ := List.mem_filterMap.mp h
  have him : i < m := List.mem_range.mp hi
  rcases hrec : recs[i]? with _ | r
  · rw [hrec] at hf; simp at hf
  · rw [hrec] at hf
    cases r <;> simp at hf
    subst hf
    exact ⟨i, him, _, _, hrec, rfl, rfl⟩

theorem cntPkts_lt_of_pkt {recs : List Record} {a i m t : Nat} {pl : List Nat}
    (hi : i < m) (hr : recs[i]? = some (.srcPacket a t pl)) :
    cntPkts recs a i < cntPkts recs a m := by
  have h1 : cntPkts recs a (i + 1) = cntPkts recs a i + 1 := by
    rw [cntPkts_succ a hr]
    simp [isPktOf]
  have h2 : cntPkts recs a (i + 1) ≤ cntPkts recs a m :=
    cntPkts_mono recs a (by omega)
  omega

theorem idxEntries_has_iff (recs : List Record) (a j : Nat) :
    ∀ m, indexHas (idxEntries recs m) a j = true ↔ j < cntPkts recs a m := by
  intro m
  constructor
  · intro h
    unfold indexHas at h
    obtain ⟨e, he, hp⟩ := List.any_eq_true.mp h
    rw [Bool.and_eq_true, beq_iff_eq, beq_iff_eq] at hp
    obtain ⟨i, him, t, pl, hrec, hc, _⟩ := idxEntries_mem he
    rw [hp.1] at hrec hc
    rw [hp.2] at hc
    have := cntPkts_lt_of_pkt him hrec
    omega
  · intro h
    induction m with
    | zero => rw [cntPkts_zero] at h; omega
    | succ n ih =>
      unfold indexHas
      rw [idxEntries_succ, List.any_append]
      rcases hrec : recs[n]? with _ | r
      · rw [cntPkts_stable a hrec] at h
        have hh := ih h
        unfold indexHas at hh
        simp [hh]
      · rw [cntPkts_succ a hrec] at h
        cases hpk : isPktOf a r
        · rw [hpk] at h
          simp at h
          have hh := ih h
          unfold indexHas at hh
          simp [hh]
        · rcases Nat.lt_or_ge j (cntPkts recs a n) with hj | hj
          · have hh := ih hj
            unfold indexHas at hh
            simp [hh]
          · have hj' : j = cntPkts recs a n := by
              rw [hpk] at h
              simp at h
              omega
            cases r <;> simp [isPktOf] at hpk
            subst hpk
            subst hj'
            simp [hrec]

theorem idxEntries_find {recs : List Record} {a j : Nat} :
    ∀ {m q t : Nat} {pl : List Nat},
    recs[q]? = some (.srcPacket a t pl) → cntPkts recs a q = j → q < m →
    (idxEntries recs m).find? (fun e => e.1 == a && e.2.1 == j) =
      some (a, j, q) := by
  intro m
  induction m with
  | zero => intro q t pl _ _ h; omega
  | succ n ih =>
    intro q t pl hq hc hm
    rw [idxEntries_succ, List.find?_append]
    rcases Nat.lt_or_ge q n with hqn | hqn
    · rw [ih hq hc hqn]
      rfl
    · have hqn' : q = n := by omega
      subst hqn'
      have hnone : (idxEntries recs q).find?
          (fun e => e.1 == a && e.2.1 == j) = none := by
        apply List.find?_eq_none.mpr
        intro e he hp
        rw [Bool.and_eq_true, beq_iff_eq, beq_iff_eq] at hp
        obtain ⟨i, him, t', pl', hrec, hcnt, _⟩ := idxEntries_mem he
        rw [hp.1] at hrec
        have := cntPkts_lt_of_pkt him hrec
        rw [hp.1] at hcnt
        omega
      rw [hnone, hq, ← hc]
      simp

theorem idxEntries_position {recs : List Record} {m a j q t : Nat}
    {pl : List Nat}
    (hq : recs[q]? = some (.srcPacket a t pl)) (hc : cntPkts recs a q = j)
    (hm : q < m) :
    indexPosition (idxEntries recs m) a j = q := by
  unfold indexPosition
  rw [idxEntries_find hq hc hm]

theorem pkt_pos_unique {recs : List Record} {a q q' t t' : Nat}
    {pl pl' : List Nat}
    (h1 : recs[q]? = some (.srcPacket a t pl))
    (h2 : recs[q']? = some (.srcPacket a t' pl'))
    (hc : cntPkts recs a q = cntPkts recs a q') : q = q' := by
  rcases Nat.lt_trichotomy q q' with h | h | h
  · have := cntPkts_lt_of_pkt h h1
    omega
  · exact h
  · have := cntPkts_lt_of_pkt h h2
    omega

/-! ## The dispatcher on canonical states of a valid stream -/

theorem shapeA_pos (recs : List Record) (p m lock dl : Nat) :
    (shapeA recs p m lock dl).pos = p := rfl

theorem shapeA_inPayload (recs : List Record) (p m lock dl : Nat) :
    (shapeA recs p m lock dl).inPayload = false := rfl

theorem set_append_length (xs : List Nat) (b v : Nat) :
    (xs ++ [b]).set xs.length v = xs ++ [v] := by
  induction xs with
  | nil => rfl
  | cons x xs ih => simpa using ih

theorem ParseNewSource_shapeA {recs : List Record} {p : Nat}
    {pss : PacketStreamSource} (m lock dl : Nat)
    (hv : ValidStream recs = true) (h : ValidAt recs p = true)
    (hr : recs[p]? = some (.addSource pss)) :
    ParseNewSource recs (shapeA recs p m lock dl) =
      (.ok (), shapeA recs (p + 1) m lock dl) := by
  have hid := (ValidAt_addSource h hr).1
  have hlen : (countersAt recs p).length = pss.id := by
    rw [countersAt_length, hid]
  unfold ParseNewSource
  simp only [shapeA]
  rw [hr]
  dsimp only
  rw [if_neg (by omega)]
  rw [if_pos (by omega)]
  rw [show pss.id + 1 - (countersAt recs p).length = 1 from by omega]
  rw [show List.replicate 1 (0 : Nat) = [0] from rfl]
  have hset : (countersAt recs p ++ [0]).set pss.id 0 =
      countersAt recs p ++ [0] := by
    conv_lhs => rw [← hlen]
    rw [set_append_length]
  rw [hset, countersAt_addSource hv h hr, regsUpTo_succ hr]
  rfl

theorem readFrameHeader_shapeA {recs : List Record} {p a t : Nat}
    {pl : List Nat} (m lock dl : Nat)
    (h : ValidAt recs p = true) (hr : recs[p]? = some (.srcPacket a t pl)) :
    readFrameHeader recs (shapeA recs p m lock dl) =
      (.ok (mkFi recs p), shapeP recs p m lock dl) := by
  obtain ⟨⟨pss, hps, _⟩, _⟩ := ValidAt_srcPacket h hr
  have ha : a < (regsUpTo recs p).length :=
    (List.getElem?_eq_some_iff.mp hps).1
  unfold readFrameHeader
  rw [show (shapeA recs p m lock dl).pos = p from rfl, hr]
  dsimp only
  unfold readPacketPart
  rw [show (shapeA recs p m lock dl).pos = p from rfl, hr]
  dsimp only
  unfold resolveFrame
  rw [show (shapeA recs p m lock dl).sources = regsUpTo recs p from rfl, hps]
  dsimp only
  rw [show (shapeA recs p m lock dl).next_packet_framenum =
    countersAt recs p from rfl]
  rw [countersAt_getElem?, if_pos ha]
  dsimp only
  have hfi : mkFi recs p = ⟨a, t,
      (if pss.data_size_bytes ≠ 0 then pss.data_size_bytes else pl.length),
      cntPkts recs a p, p, p, false⟩ := by
    unfold mkFi
    rw [hr]
    dsimp only
    rw [hps]
  rw [hfi]
  have hpay : payloadAt recs p = pl := by
    unfold payloadAt
    rw [hr]
  by_cases hz : pl.length = 0
  · rw [if_pos hz]
    unfold shapeP
    rw [hpay]
    have : pl.isEmpty = true := by
      cases pl
      · rfl
      · simp at hz
    rw [this]
    rfl
  · rw [if_neg hz]
    unfold shapeP
    rw [hpay]
    have : pl.isEmpty = false := by
      cases pl
      · simp at hz
      · rfl
    rw [this]
    rfl

theorem firstPkt_endRec {recs : List Record} {p : Nat}
    (hr : recs[p]? = some .endRec) (hlen : recs.length = p + 1) :
    firstPkt recs p = none := by
  unfold firstPkt
  rw [drop_eq_cons_of_getElem hr,
    List.drop_eq_nil_of_le (by omega : recs.length ≤ p + 1)]
  rfl

theorem firstPktOf_endRec {recs : List Record} {a p : Nat}
    (hr : recs[p]? = some .endRec) (hlen : recs.length = p + 1) :
    firstPktOf recs a p = none := by
  unfold firstPktOf
  rw [drop_eq_cons_of_getElem hr,
    List.drop_eq_nil_of_le (by omega : recs.length ≤ p + 1)]
  rfl

theorem nextFrameAux_run {recs : List Record} (hv : ValidStream recs = true) :
    ∀ (fuel p m lock dl : Nat), 1 ≤ p → ValidAt recs p = true →
    recs.length - p < fuel →
    nextFrameAux recs fuel (shapeA recs p m lock dl) =
      (match firstPkt recs p with
       | some q => (.ok (some (mkFi recs q)), shapeP recs q m lock dl)
       | none => (.ok none, shapeA recs (endIdx recs) m lock dl)) := by
  intro fuel
  induction fuel with
  | zero => intro p m lock dl _ _ hf; omega
  | succ n ih =>
    intro p m lock dl hp h hf
    obtain ⟨r, hr⟩ := ValidAt_getElem h
    have hplen : p < recs.length := (List.getElem?_eq_some_iff.mp hr).1
    rw [nextFrameAux]
    rw [if_neg (by rw [shapeA_inPayload]; simp)]
    rw [shapeA_pos, hr]
    rcases ValidAt_shapes h hr with ⟨pss, rfl⟩ | ⟨a, t, pl, rfl⟩ | rfl
    · rw [ParseNewSource_shapeA m lock dl hv h hr]
      dsimp only
      rw [ih (p + 1) m lock dl (by omega) (ValidAt_addSource h hr).2
        (by omega)]
      rw [firstPkt_step hr (by rfl)]
    · dsimp only
      rw [readFrameHeader_shapeA m lock dl h hr]
      rw [firstPkt_here hr (by rfl)]
    · have hlen := ValidAt_endRec h hr
      rw [firstPkt_endRec hr hlen]
      dsimp only
      unfold endIdx
      rw [show recs.length - 1 = p from by omega]

theorem nextFrameDispatch_run {recs : List Record} {p : Nat}
    (m lock dl : Nat) (hv : ValidStream recs = true) (hp : 1 ≤ p)
    (h : ValidAt recs p = true) :
    nextFrameDispatch recs (shapeA recs p m lock dl) =
      (match firstPkt recs p with
       | some q => (.ok (some (mkFi recs q)), shapeP recs q m lock dl)
       | none => (.ok none, shapeA recs (endIdx recs) m lock dl)) := by
  unfold nextFrameDispatch
  exact nextFrameAux_run hv (recs.length + 1) p m lock dl hp h (by omega)

/-! ## Stepping the `NextFrame` loop -/

theorem isPktOf_false_of_isPkt {a : Nat} {r : Record}
    (h : isPkt r = false) : isPktOf a r = false := by
  cases r <;> simp_all [isPkt, isPktOf]

theorem firstPktOf_gap {recs : List Record} {a : Nat} :
    ∀ {p q : Nat}, p ≤ q →
    (∀ i, p ≤ i → i < q → ∃ r, recs[i]? = some r ∧ isPkt r = false) →
    firstPktOf recs a p = firstPktOf recs a q := by
  intro p q
  induction q with
  | zero =>
    intro h _
    have : p = 0 := by omega
    rw [this]
  | succ n ih =>
    intro h hgap
    rcases Nat.lt_or_ge p (n + 1) with hlt | hge
    · have h1 : firstPktOf recs a p = firstPktOf recs a n :=
        ih (by omega) (fun i h1 h2 => hgap i h1 (by omega))
      obtain ⟨r, hr, hp⟩ := hgap n (by omega) (by omega)
      rw [h1, firstPktOf_step hr (isPktOf_false_of_isPkt hp)]
    · have : p = n + 1 := by omega
      rw [this]

theorem remPkts_succ {recs : List Record} {p : Nat} {r : Record}
    (h : recs[p]? = some r) :
    remPkts recs p = remPkts recs (p + 1) + (if isPkt r then 1 else 0) := by
  unfold remPkts
  rw [drop_eq_cons_of_getElem h, List.filter_cons]
  cases hb : isPkt r <;> simp [hb]

theorem remPkts_congr_gap {recs : List Record} :
    ∀ {p q : Nat}, p ≤ q →
    (∀ i, p ≤ i → i < q → ∃ r, recs[i]? = some r ∧ isPkt r = false) →
    remPkts recs p = remPkts recs q := by
  intro p q
  induction q with
  | zero =>
    intro h _
    have : p = 0 := by omega
    rw [this]
  | succ n ih =>
    intro h hgap
    rcases Nat.lt_or_ge p (n + 1) with hlt | hge
    · have h1 : remPkts recs p = remPkts recs n :=
        ih (by omega) (fun i h1 h2 => hgap i h1 (by omega))
      obtain ⟨r, hr, hp⟩ := hgap n (by omega) (by omega)
      rw [h1, remPkts_succ hr, hp]
      simp
    · have : p = n + 1 := by omega
      rw [this]

theorem countersAt_getD {recs : List Record} {q a : Nat}
    (ha : a < (regsUpTo recs q).length) :
    (countersAt recs q).getD a 0 = cntPkts recs a q := by
  rw [List.getD_eq_getElem?_getD, countersAt_getElem?, if_pos ha]
  rfl

theorem mkFi_src {recs : List Record} {q a t : Nat} {pl : List Nat}
    (hr : recs[q]? = some (.srcPacket a t pl)) : (mkFi recs q).src = a := by
  unfold mkFi
  rw [hr]

theorem mkFi_seq {recs : List Record} {q a t : Nat} {pl : List Nat}
    (hr : recs[q]? = some (.srcPacket a t pl)) :
    (mkFi recs q).sequence_num = cntPkts recs a q := by
  unfold mkFi
  rw [hr]

theorem mkFi_streampos {recs : List Record} {q a t : Nat} {pl : List Nat}
    (hr : recs[q]? = some (.srcPacket a t pl)) :
    (mkFi recs q).frame_streampos = q ∧ (mkFi recs q).packet_streampos = q := by
  unfold mkFi
  rw [hr]
  exact ⟨rfl, rfl⟩

theorem mkFi_size_valid {recs : List Record} {q a t : Nat} {pl : List Nat}
    (h : ValidAt recs q = true) (hr : recs[q]? = some (.srcPacket a t pl)) :
    (mkFi recs q).size = pl.length := by
  obtain ⟨⟨pss, hps, hsz⟩, _⟩ := ValidAt_srcPacket h hr
  unfold mkFi
  rw [hr]
  dsimp only
  rw [hps]
  dsimp only
  rcases hsz with h0 | h0
  · rw [h0]
    simp
  · by_cases hz : pss.data_size_bytes = 0
    · rw [hz]
      simp
    · rw [if_pos hz, ← h0]

/-! ## When no packet remains -/

theorem scanPkt_none_all {l : List Record} (h : scanPkt l = none) :
    ∀ r ∈ l, isPkt r = false := by
  induction l with
  | nil => intro r hr; simp at hr
  | cons x rest ih =>
    intro r hr
    rw [scanPkt] at h
    by_cases hx : isPkt x = true
    · rw [if_pos hx] at h; simp at h
    · rw [if_neg hx] at h
      rw [List.mem_cons] at hr
      rcases hr with rfl | hr
      · simpa using hx
      · apply ih _ r hr
        rcases hs : scanPkt rest with _ | j
        · rfl
        · rw [hs] at h; simp [Option.map] at h

theorem scanPktOf_none {a : Nat} {l : List Record}
    (h : ∀ r ∈ l, isPktOf a r = false) : scanPktOf a l = none := by
  induction l with
  | nil => rfl
  | cons x rest ih =>
    rw [scanPktOf, if_neg (by simp [h x (by simp)])]
    rw [ih (fun r hr => h r (by simp [hr]))]
    rfl

theorem firstPktOf_none_of_firstPkt {recs : List Record} {src p : Nat}
    (h : firstPkt recs p = none) : firstPktOf recs src p = none := by
  unfold firstPkt at h
  unfold firstPktOf
  rcases hs : scanPkt (recs.drop p) with _ | j
  · rw [scanPktOf_none (fun r hr =>
      isPktOf_false_of_isPkt (scanPkt_none_all hs r hr))]
    rfl
  · rw [hs] at h; simp [Option.map] at h

theorem firstPkt_none_gap {recs : List Record} {p : Nat}
    (h : firstPkt recs p = none) :
    ∀ i, p ≤ i → i < recs.length → ∃ r, recs[i]? = some r ∧
      isPkt r = false := by
  intro i hpi hilen
  unfold firstPkt at h
  rcases hs : scanPkt (recs.drop p) with _ | j
  · have hget : recs[i]? = (recs.drop p)[i - p]? := by
      rw [List.getElem?_drop, Nat.add_sub_cancel' hpi]
    rcases hr : recs[i]? with _ | r
    · rw [List.getElem?_eq_none_iff] at hr
      omega
    · refine ⟨r, rfl, ?_⟩
      apply scanPkt_none_all hs
      apply List.getElem?_mem
      rw [← hget, hr]
  · rw [hs] at h; simp [Option.map] at h

/-! ## Index reconciliation at a dispatched frame -/

theorem index_reconcile_miss {recs : List Record} {p q a t : Nat}
    {pl : List Nat}
    (hrq : recs[q]? = some (.srcPacket a t pl)) (hpq : p ≤ q)
    (hgap : ∀ i, p ≤ i → i < q → ∃ r, recs[i]? = some r ∧ isPkt r = false) :
    indexHas (idxEntries recs p) a (cntPkts recs a q) = false ∧
    indexAdd (idxEntries recs p) a (cntPkts recs a q) q =
      idxEntries recs (q + 1) := by
  have hidx : idxEntries recs q = idxEntries recs p :=
    idxEntries_congr_gap hpq hgap
  have hcnt : cntPkts recs a q = cntPkts recs a p :=
    cntPkts_congr_gap hpq hgap
  constructor
  · rw [Bool.eq_false_iff]
    intro hcontra
    have := (idxEntries_has_iff recs a (cntPkts recs a q) p).mp hcontra
    omega
  · unfold indexAdd
    rw [idxEntries_succ, hrq, hidx]

theorem index_reconcile_hit {recs : List Record} {q a t : Nat}
    {pl : List Nat}
    (hrq : recs[q]? = some (.srcPacket a t pl)) :
    indexHas (idxEntries recs (q + 1)) a (cntPkts recs a q) = true ∧
    indexPosition (idxEntries recs (q + 1)) a (cntPkts recs a q) = q := by
  constructor
  · apply (idxEntries_has_iff recs a (cntPkts recs a q) (q + 1)).mpr
    rw [cntPkts_succ a hrq]
    simp [isPktOf]
  · exact idxEntries_position hrq rfl (by omega)

/-! ## Draining a returned frame directly on the stream -/

theorem streamSkip_shapeB {recs : List Record} {q a t : Nat} {pl : List Nat}
    (lock : Nat)
    (hVq : ValidAt recs q = true) (hrq : recs[q]? = some (.srcPacket a t pl)) :
    streamSkip recs (mkFi recs q).size (shapeB recs q lock) =
      shapeA recs (q + 1) (q + 1) lock 0 := by
  have hsz := mkFi_size_valid hVq hrq
  have hpay : payloadAt recs q = pl := by
    unfold payloadAt
    rw [hrq]
  unfold streamSkip streamRead
  by_cases hz : pl.length = 0
  · have hempty : pl.isEmpty = true := by
      cases pl
      · rfl
      · simp at hz
    rw [show (shapeB recs q lock).inPayload = !(payloadAt recs q).isEmpty
      from rfl, hpay, hempty]
    dsimp only
    unfold shapeB shapeA
    rw [hpay, hempty, hsz, hz]
    rfl
  · have hempty : pl.isEmpty = false := by
      cases pl
      · simp at hz
      · rfl
    rw [show (shapeB recs q lock).inPayload = !(payloadAt recs q).isEmpty
      from rfl, hpay, hempty]
    dsimp only
    rw [show (shapeB recs q lock).pos =
      (if (payloadAt recs q).isEmpty then q + 1 else q) from rfl, hpay,
      hempty]
    simp only [Bool.false_eq_true, if_false]
    rw [hrq]
    dsimp only
    unfold shapeB shapeA
    rw [hpay, hempty, hsz]
    dsimp only
    rw [if_pos (by omega : pl.length ≤ 0 + pl.length)]
    rw [Nat.sub_self]
    simp

/-- Assembling the loop body's state update into `shapeB`. -/
theorem assemble_shapeB {recs : List Record} {q a t : Nat} {pl : List Nat}
    (m lock dl : Nat) (hrq : recs[q]? = some (.srcPacket a t pl)) :
    setDataLen (mkFi recs q).size
      ({ shapeP recs q m lock dl with
         seekableFlag := true,
         next_packet_framenum := countersAt recs (q + 1),
         index := idxEntries recs (q + 1) } : ReaderState) =
      shapeB recs q lock := by
  have hregs : regsUpTo recs (q + 1) = regsUpTo recs q := by
    rw [regsUpTo_succ hrq]
    simp [regOf]
  unfold setDataLen shapeP shapeB
  rw [hregs]

/-! ## `NextFrame` on a valid stream -/

theorem NextFrameLoop_run {recs : List Record} (hv : ValidStream recs = true)
    (src : Nat) :
    ∀ (fuel p m lock dl : Nat), 1 ≤ p → ValidAt recs p = true →
    (m = p ∨ (m = p + 1 ∧ ∃ a t pl, recs[p]? = some (.srcPacket a t pl))) →
    remPkts recs p < fuel →
    (match firstPktOf recs src p with
     | some q => NextFrameLoop recs src fuel (shapeA recs p m lock dl) =
         (.ok (some (mkFi recs q)), shapeB recs q lock)
     | none => ∃ dl0, NextFrameLoop recs src fuel (shapeA recs p m lock dl) =
         (.ok none, shapeA recs (endIdx recs) (endIdx recs) (lock - 1) dl0)) := by
  intro fuel
  induction fuel with
  | zero => intro p m lock dl _ _ _ hf; omega
  | succ n ih =>
    intro p m lock dl hp h hMok hf
    rcases hfp : firstPkt recs p with _ | q
    · -- no packets remain: the dispatcher reaches the end marker
      have hm : m = p := by
        rcases hMok with rfl | ⟨rfl, a, t, pl, hpkt⟩
        · rfl
        · rw [firstPkt_here hpkt (by rfl)] at hfp
          cases hfp
      subst hm
      rw [firstPktOf_none_of_firstPkt hfp]
      refine ⟨dl, ?_⟩
      rw [NextFrameLoop]
      rw [nextFrameDispatch_run m lock dl hv hp h, hfp]
      dsimp only
      have hEnd : m ≤ endIdx recs := ValidAt_le_endIdx h
      have hgap := firstPkt_none_gap hfp
      have hidx : idxEntries recs (endIdx recs) = idxEntries recs m :=
        idxEntries_congr_gap hEnd (fun i h1 h2 => hgap i h1 (by
          unfold endIdx at h2
          omega))
      unfold unlockR shapeA
      rw [hidx]
    · -- a packet is dispatched at q
      obtain ⟨rq, hrq0, hrqpkt⟩ := firstPkt_is_pkt hfp
      obtain ⟨hpq, hgap⟩ := firstPkt_not_between hfp
      rcases rq with _ | _ | ⟨a, t, pl⟩ | _ | _ | _ | _ | _ | _ | _ <;>
        simp [isPkt] at hrqpkt
      have hrq : recs[q]? = some (.srcPacket a t pl) := hrq0
      have hqlen : q < recs.length := (List.getElem?_eq_some_iff.mp hrq).1
      have hVq : ValidAt recs q = true := by
        rcases Nat.eq_or_lt_of_le hpq with rfl | hlt
        · exact h
        · exact ValidAt_chain hv q (by omega) (by unfold endIdx; omega)
      have hVq1 : ValidAt recs (q + 1) = true := (ValidAt_srcPacket hVq hrq).2
      obtain ⟨⟨pss, hps, _⟩, _⟩ := ValidAt_srcPacket hVq hrq
      have ha : a < (regsUpTo recs q).length :=
        (List.getElem?_eq_some_iff.mp hps).1
      have hcnt : (countersAt recs q).set (mkFi recs q).src
          ((countersAt recs q).getD (mkFi recs q).src 0 + 1) =
          countersAt recs (q + 1) := by
        rw [mkFi_src hrq, countersAt_getD ha,
          (countersAt_srcPacket hVq hrq).symm]
      have hidxm : m ≤ q + 1 := by
        rcases hMok with rfl | ⟨rfl, _⟩ <;> omega
      -- the index after reconciliation is `idxEntries recs (q + 1)`
      have hMokCases : (m = p ∧ p ≤ q) ∨ (m = p + 1 ∧ q = p) := by
        rcases hMok with rfl | ⟨rfl, a', t', pl', hpkt⟩
        · exact Or.inl ⟨rfl, hpq⟩
        · right
          refine ⟨rfl, ?_⟩
          rw [firstPkt_here hpkt (by rfl)] at hfp
          cases hfp
          rfl
      rw [NextFrameLoop]
      rw [nextFrameDispatch_run m lock dl hv hp h, hfp]
      dsimp only
      rw [show (shapeP recs q m lock dl).next_packet_framenum =
        countersAt recs q from rfl]
      rw [show (shapeP recs q m lock dl).index = idxEntries recs m from rfl]
      rw [hcnt]
      rw [show ({ shapeP recs q m lock dl with
        next_packet_framenum := countersAt recs (q + 1) } :
          ReaderState).seekableFlag = true from rfl]
      rw [if_pos rfl]
      have hfsp := (mkFi_streampos hrq).1
      have hpsp := (mkFi_streampos hrq).2
      have hIH := ih (q + 1) (q + 1) lock 0 (by omega) hVq1 (Or.inl rfl) (by
        have h1 : remPkts recs p = remPkts recs q := remPkts_congr_gap hpq hgap
        have h2 : remPkts recs q = remPkts recs (q + 1) + 1 := by
          rw [remPkts_succ hrq]
          simp [isPkt]
        omega)
      by_cases hEq : a = src
      · have hfo : firstPktOf recs src p = some q := by
          rw [firstPktOf_gap hpq hgap,
            firstPktOf_here hrq (by simp [isPktOf, hEq])]
        rw [hfo]
        dsimp only
        rcases hMokCases with ⟨hm, hpq2⟩ | ⟨hm, hqp⟩
        · have hmiss := index_reconcile_miss hrq hpq hgap
          rw [← hm] at hmiss
          rw [mkFi_src hrq, mkFi_seq hrq, hfsp]
          rw [hmiss.1]
          rw [if_pos (by simp)]
          rw [hmiss.2]
          rw [if_pos hEq]
          rw [assemble_shapeB m lock dl hrq]
        · have hhit := index_reconcile_hit hrq
          have hmq : m = q + 1 := by omega
          rw [mkFi_src hrq, mkFi_seq hrq, hfsp, hpsp, hmq]
          rw [hhit.1]
          rw [if_neg (by simp)]
          rw [hhit.2]
          rw [if_neg (by simp)]
          rw [if_pos hEq]
          rw [assemble_shapeB (q + 1) lock dl hrq]
      · have hfo : firstPktOf recs src p = firstPktOf recs src (q + 1) := by
          rw [firstPktOf_gap hpq hgap,
            firstPktOf_step hrq (beq_eq_false_iff_ne.mpr hEq)]
        rw [hfo]
        rcases hMokCases with ⟨hm, hpq2⟩ | ⟨hm, hqp⟩
        · have hmiss := index_reconcile_miss hrq hpq hgap
          rw [← hm] at hmiss
          rcases hrest : firstPktOf recs src (q + 1) with _ | q1 <;>
            rw [hrest] at hIH <;> dsimp only
          · obtain ⟨dl0, hIH'⟩ := hIH
            refine ⟨dl0, ?_⟩
            rw [mkFi_src hrq, mkFi_seq hrq, hfsp]
            rw [hmiss.1]
            rw [if_pos (by simp)]
            rw [hmiss.2]
            rw [if_neg hEq]
            rw [assemble_shapeB m lock dl hrq]
            rw [streamSkip_shapeB lock hVq hrq]
            exact hIH'
          · rw [mkFi_src hrq, mkFi_seq hrq, hfsp]
            rw [hmiss.1]
            rw [if_pos (by simp)]
            rw [hmiss.2]
            rw [if_neg hEq]
            rw [assemble_shapeB m lock dl hrq]
            rw [streamSkip_shapeB lock hVq hrq]
            exact hIH
        · have hhit := index_reconcile_hit hrq
          have hmq : m = q + 1 := by omega
          rcases hrest : firstPktOf recs src (q + 1) with _ | q1 <;>
            rw [hrest] at hIH <;> dsimp only
          · obtain ⟨dl0, hIH'⟩ := hIH
            refine ⟨dl0, ?_⟩
            rw [mkFi_src hrq, mkFi_seq hrq, hfsp, hpsp, hmq]
            rw [hhit.1]
            rw [if_neg (by simp)]
            rw [hhit.2]
            rw [if_neg (by simp)]
            rw [if_neg hEq]
            rw [assemble_shapeB (q + 1) lock dl hrq]
            rw [streamSkip_shapeB lock hVq hrq]
            exact hIH'
          · rw [mkFi_src hrq, mkFi_seq hrq, hfsp, hpsp, hmq]
            rw [hhit.1]
            rw [if_neg (by simp)]
            rw [hhit.2]
            rw [if_neg (by simp)]
            rw [if_neg hEq]
            rw [assemble_shapeB (q + 1) lock dl hrq]
            rw [streamSkip_shapeB lock hVq hrq]
            exact hIH

theorem remPkts_le (recs : List Record) (p : Nat) :
    remPkts recs p ≤ recs.length := by
  unfold remPkts
  calc ((recs.drop p).filter isPkt).length ≤ (recs.drop p).length :=
        List.length_filter_le _ _
    _ ≤ recs.length := by
        rw [List.length_drop]
        omega

theorem NextFrame_run {recs : List Record} (hv : ValidStream recs = true)
    (src : Nat) (p m lock dl : Nat) (hp : 1 ≤ p)
    (h : ValidAt recs p = true)
    (hMok : m = p ∨ (m = p + 1 ∧ ∃ a t pl,
      recs[p]? = some (.srcPacket a t pl))) :
    (match firstPktOf recs src p with
     | some q => NextFrame recs src (shapeA recs p m lock dl) =
         (.ok (some (mkFi recs q)), shapeB recs q (lock + 1))
     | none => ∃ dl0, NextFrame recs src (shapeA recs p m lock dl) =
         (.ok none, shapeA recs (endIdx recs) (endIdx recs) lock dl0)) := by
  have hrun := NextFrameLoop_run hv src (recs.length + 1) p m (lock + 1) dl
    hp h hMok (by have := remPkts_le recs p; omega)
  have hlock : lockR (shapeA recs p m lock dl) =
      shapeA recs p m (lock + 1) dl := rfl
  rcases hfo : firstPktOf recs src p with _ | q
  · rw [hfo] at hrun
    obtain ⟨dl0, hrun'⟩ := hrun
    refine ⟨dl0, ?_⟩
    unfold NextFrame
    rw [hlock]
    dsimp only
    rw [hrun']
    dsimp only
    rw [Nat.add_sub_cancel]
  · rw [hfo] at hrun
    unfold NextFrame
    rw [hlock]
    dsimp only
    rw [hrun]

theorem shapeB_empty_eq {recs : List Record} {q a t : Nat}
    (lock : Nat) (hrq : recs[q]? = some (.srcPacket a t []))
    (hVq : ValidAt recs q = true) :
    shapeB recs q lock = shapeA recs (q + 1) (q + 1) lock 0 := by
  have hsz := mkFi_size_valid hVq hrq
  have hpay : payloadAt recs q = [] := by
    unfold payloadAt
    rw [hrq]
  unfold shapeB shapeA
  rw [hpay, hsz]
  rfl

theorem drain_shapeB {recs : List Record} {q a t : Nat} {pl : List Nat}
    (lock : Nat) (hVq : ValidAt recs q = true)
    (hrq : recs[q]? = some (.srcPacket a t pl)) :
    ∃ lock2, (if (shapeB recs q lock).dataLen ≠ 0 then
        (Skip recs (shapeB recs q lock).dataLen (shapeB recs q lock)).2
      else shapeB recs q lock) = shapeA recs (q + 1) (q + 1) lock2 0 := by
  have hsz := mkFi_size_valid hVq hrq
  have hdl : (shapeB recs q lock).dataLen = pl.length := by
    rw [show (shapeB recs q lock).dataLen = (mkFi recs q).size from rfl, hsz]
  by_cases hz : pl.length = 0
  · refine ⟨lock, ?_⟩
    rw [hdl, hz]
    simp only [ne_eq, not_true_eq_false, if_false]
    have hnil : pl = [] := List.length_eq_zero.mp hz
    subst hnil
    exact shapeB_empty_eq lock hrq hVq
  · refine ⟨lock - 1, ?_⟩
    rw [hdl]
    rw [if_pos hz]
    unfold Skip
    rw [hdl]
    rw [if_neg hz]
    rw [if_neg (by omega : ¬ pl.length < pl.length)]
    dsimp only
    have hskip : streamSkip recs pl.length (shapeB recs q lock) =
        shapeA recs (q + 1) (q + 1) lock 0 := by
      have := streamSkip_shapeB lock hVq hrq
      rwa [hsz] at this
    rw [hskip]
    rw [show (shapeA recs (q + 1) (q + 1) lock 0).dataLen = 0 from rfl]
    rw [if_pos rfl]
    rfl

/-! ## Locating the first packet of a given source -/

theorem scanPktOf_none_all {a : Nat} {l : List Record}
    (h : scanPktOf a l = none) : ∀ r ∈ l, isPktOf a r = false := by
  induction l with
  | nil => intro r hr; simp at hr
  | cons x rest ih =>
    intro r hr
    rw [scanPktOf] at h
    by_cases hx : isPktOf a x = true
    · rw [if_pos hx] at h; simp at h
    · rw [if_neg hx] at h
      rw [List.mem_cons] at hr
      rcases hr with rfl | hr
      · simpa using hx
      · apply ih _ r hr
        rcases hs : scanPktOf a rest with _ | j
        · rfl
        · rw [hs] at h; simp [Option.map] at h

theorem scanPktOf_not_before {a : Nat} {l : List Record} :
    ∀ {j : Nat}, scanPktOf a l = some j →
    ∀ k, k < j → ∃ r, l[k]? = some r ∧ isPktOf a r = false := by
  induction l with
  | nil => intro j h; simp [scanPktOf] at h
  | cons r rest ih =>
    intro j h k hk
    rw [scanPktOf] at h
    by_cases hr : isPktOf a r = true
    · rw [if_pos hr] at h
      cases h
      omega
    · rw [if_neg hr] at h
      rcases hs : scanPktOf a rest with _ | j'
      · rw [hs] at h; simp [Option.map] at h
      · rw [hs] at h
        rw [show ∀ (f : Nat → Nat) (x : Nat), (some x).map f = some (f x) from fun _ _ => rfl] at h
        cases h
        rcases k with _ | k'
        · exact ⟨r, by simp, by simpa using hr⟩
        · obtain ⟨r', hr', hp'⟩ := ih hs k' (by omega)
          exact ⟨r', by simpa using hr', hp'⟩

theorem scanPktOf_at {a : Nat} {l : List Record} :
    ∀ {j : Nat}, scanPktOf a l = some j →
    ∃ r, l[j]? = some r ∧ isPktOf a r = true := by
  induction l with
  | nil => intro j h; simp [scanPktOf] at h
  | cons r rest ih =>
    intro j h
    rw [scanPktOf] at h
    by_cases hr : isPktOf a r = true
    · rw [if_pos hr] at h
      cases h
      exact ⟨r, by simp, hr⟩
    · rw [if_neg hr] at h
      rcases hs : scanPktOf a rest with _ | j'
      · rw [hs] at h; simp [Option.map] at h
      · rw [hs] at h
        rw [show ∀ (f : Nat → Nat) (x : Nat), (some x).map f = some (f x) from fun _ _ => rfl] at h
        cases h
        obtain ⟨r', hr', hp'⟩ := ih hs
        exact ⟨r', by simpa using hr', hp'⟩

theorem isPktOf_shape {a : Nat} {r : Record} (h : isPktOf a r = true) :
    ∃ t pl, r = .srcPacket a t pl := by
  cases r with
  | srcPacket b t pl =>
      rw [isPktOf, beq_iff_eq] at h
      exact ⟨t, pl, by rw [h]⟩
  | _ => simp [isPktOf] at h

theorem firstPktOf_not_between {recs : List Record} {a p q : Nat}
    (h : firstPktOf recs a p = some q) :
    p ≤ q ∧ ∀ i, p ≤ i → i < q →
      ∃ r, recs[i]? = some r ∧ isPktOf a r = false := by
  unfold firstPktOf at h
  rcases hs : scanPktOf a (recs.drop p) with _ | j
  · rw [hs] at h; simp [Option.map] at h
  · rw [hs] at h
    rw [show ∀ (f : Nat → Nat) (x : Nat), (some x).map f = some (f x) from fun _ _ => rfl] at h
    cases h
    refine ⟨by omega, fun i hpi hiq => ?_⟩
    obtain ⟨r, hr, hp⟩ := scanPktOf_not_before hs (i - p) (by omega)
    rw [List.getElem?_drop] at hr
    exact ⟨r, by rwa [Nat.add_sub_cancel' hpi] at hr, hp⟩

theorem firstPktOf_is_pkt {recs : List Record} {a p q : Nat}
    (h : firstPktOf recs a p = some q) :
    ∃ t pl, recs[q]? = some (.srcPacket a t pl) := by
  unfold firstPktOf at h
  rcases hs : scanPktOf a (recs.drop p) with _ | j
  · rw [hs] at h; simp [Option.map] at h
  · rw [hs] at h
    rw [show ∀ (f : Nat → Nat) (x : Nat), (some x).map f = some (f x) from fun _ _ => rfl] at h
    cases h
    obtain ⟨r, hr, hp⟩ := scanPktOf_at hs
    rw [List.getElem?_drop] at hr
    obtain ⟨t, pl, rfl⟩ := isPktOf_shape hp
    exact ⟨t, pl, by rwa [Nat.add_comm] at hr⟩

theorem cntPkts_congr_gapOf {recs : List Record} {a : Nat} :
    ∀ {p q : Nat}, p ≤ q →
    (∀ i, p ≤ i → i < q → ∃ r, recs[i]? = some r ∧ isPktOf a r = false) →
    cntPkts recs a q = cntPkts recs a p := by
  intro p q
  induction q with
  | zero =>
    intro h _
    have : p = 0 := by omega
    rw [this]
  | succ n ih =>
    intro h hgap
    rcases Nat.lt_or_ge p (n + 1) with hlt | hge
    · have h1 : cntPkts recs a n = cntPkts recs a p :=
        ih (by omega) (fun i h1 h2 => hgap i h1 (by omega))
      obtain ⟨r, hr, hp⟩ := hgap n (by omega) (by omega)
      rw [cntPkts_succ a hr, h1, hp]
      simp
    · have : p = n + 1 := by omega
      rw [this]

theorem cntPkts_at_firstPktOf {recs : List Record} {a p q : Nat}
    (h : firstPktOf recs a p = some q) :
    cntPkts recs a q = cntPkts recs a p := by
  obtain ⟨hpq, hgap⟩ := firstPktOf_not_between h
  exact cntPkts_congr_gapOf hpq hgap

theorem cntPkts_split (recs : List Record) (a p : Nat) :
    cntPkts recs a recs.length =
      cntPkts recs a p + ((recs.drop p).filter (isPktOf a)).length := by
  unfold cntPkts
  rw [show recs.take recs.length = recs.take p ++ recs.drop p from by
    rw [List.take_length]; exact (List.take_append_drop p recs).symm]
  rw [List.filter_append, List.length_append]

theorem firstPktOf_none_count {recs : List Record} {a p : Nat}
    (h : firstPktOf recs a p = none) :
    cntPkts recs a recs.length = cntPkts recs a p := by
  unfold firstPktOf at h
  rcases hs : scanPktOf a (recs.drop p) with _ | j
  · have hall := scanPktOf_none_all hs
    have hfil : (recs.drop p).filter (isPktOf a) = [] :=
      List.filter_eq_nil_iff.mpr (fun r hr => by simp [hall r hr])
    rw [cntPkts_split recs a p, hfil]
    rfl
  · rw [hs] at h; simp [Option.map] at h

theorem firstPktOf_some_of_count {recs : List Record} {a p : Nat}
    (h : cntPkts recs a p < cntPkts recs a recs.length) :
    ∃ q, firstPktOf recs a p = some q := by
  rcases hf : firstPktOf recs a p with _ | q
  · rw [firstPktOf_none_count hf] at h
    omega
  · exact ⟨q, rfl⟩

theorem remPkts_anti (recs : List Record) {p q : Nat} (h : p ≤ q) :
    remPkts recs q ≤ remPkts recs p := by
  unfold remPkts
  obtain ⟨k, rfl⟩ := Nat.exists_eq_add_of_le h
  conv_rhs => rw [← List.take_append_drop k (recs.drop p)]
  rw [List.filter_append, List.length_append, List.drop_drop]
  omega

theorem remPkts_dec_at_pkt {recs : List Record} {p q a t : Nat}
    {pl : List Nat} (hpq : p ≤ q)
    (hrq : recs[q]? = some (.srcPacket a t pl)) :
    remPkts recs (q + 1) < remPkts recs p := by
  have h1 := remPkts_anti recs hpq
  have h2 := remPkts_succ hrq
  rw [show isPkt (Record.srcPacket a t pl) = true from rfl] at h2
  simp at h2
  omega

/-! ## `Open` on a valid stream -/

theorem last_endRec {recs : List Record} (hv : ValidStream recs = true) :
    recs[endIdx recs]? = some Record.endRec := by
  have h2 := ValidStream_length hv
  have hVe : ValidAt recs (endIdx recs) = true :=
    ValidAt_chain hv (endIdx recs) (by unfold endIdx; omega) le_rfl
  obtain ⟨r, hr⟩ := ValidAt_getElem hVe
  have hlen : endIdx recs + 1 = recs.length := by unfold endIdx; omega
  rcases ValidAt_shapes hVe hr with ⟨pss, rfl⟩ | ⟨a, t, pl, rfl⟩ | rfl
  · exfalso
    have hnext := (ValidAt_addSource hVe hr).2
    obtain ⟨r', hr'⟩ := ValidAt_getElem hnext
    rw [hlen, List.getElem?_eq_none_iff.mpr le_rfl] at hr'
    exact Option.noConfusion hr'
  · exfalso
    have hnext := (ValidAt_srcPacket hVe hr).2
    obtain ⟨r', hr'⟩ := ValidAt_getElem hnext
    rw [hlen, List.getElem?_eq_none_iff.mpr le_rfl] at hr'
    exact Option.noConfusion hr'
  · exact hr

theorem SetupIndex_valid {recs : List Record} (hv : ValidStream recs = true)
    (s : ReaderState) : SetupIndex recs s = s := by
  have he : recs[recs.length - 1]? = some Record.endRec := last_endRec hv
  unfold SetupIndex
  split
  · rfl
  · rw [he]

theorem leadAdds_lt {l : List Record} :
    ∀ i, i < leadAdds l → ∃ pss, l[i]? = some (.addSource pss) := by
  induction l with
  | nil => intro i hi; simp [leadAdds] at hi
  | cons r rest ih =>
    intro i hi
    cases r with
    | addSource pss =>
      rcases i with _ | j
      · exact ⟨pss, by simp⟩
      · rw [leadAdds] at hi
        obtain ⟨pss', h'⟩ := ih j (by omega)
        exact ⟨pss', by simpa using h'⟩
    | hdr => simp [leadAdds] at hi
    | srcJson a => simp [leadAdds] at hi
    | srcPacket a t pl => simp [leadAdds] at hi
    | sync => simp [leadAdds] at hi
    | stats e => simp [leadAdds] at hi
    | footer ip => simp [leadAdds] at hi
    | endRec => simp [leadAdds] at hi
    | magic => simp [leadAdds] at hi
    | unknownTag => simp [leadAdds] at hi

theorem leadAdds_at {l : List Record} :
    ∀ pss, l[leadAdds l]? ≠ some (.addSource pss) := by
  induction l with
  | nil => intro pss h; simp at h
  | cons r rest ih =>
    intro pss h
    cases r with
    | addSource pss' =>
      rw [show leadAdds (Record.addSource pss' :: rest) = leadAdds rest + 1
        from rfl] at h
      exact ih pss (by simpa using h)
    | hdr => simp [leadAdds] at h
    | srcJson a => simp [leadAdds] at h
    | srcPacket a t pl => simp [leadAdds] at h
    | sync => simp [leadAdds] at h
    | stats e => simp [leadAdds] at h
    | footer ip => simp [leadAdds] at h
    | endRec => simp [leadAdds] at h
    | magic => simp [leadAdds] at h
    | unknownTag => simp [leadAdds] at h

theorem leadAdds_le_length (l : List Record) : leadAdds l ≤ l.length := by
  induction l with
  | nil => simp [leadAdds]
  | cons r rest ih =>
    cases r <;> simp [leadAdds] <;> omega

theorem openEnd_lead {recs : List Record} :
    ∀ i, 1 ≤ i → i < openEnd recs →
    ∃ pss, recs[i]? = some (.addSource pss) := by
  intro i h1 h2
  unfold openEnd at h2
  obtain ⟨pss, hp⟩ := leadAdds_lt (l := recs.drop 1) (i - 1) (by omega)
  rw [List.getElem?_drop] at hp
  exact ⟨pss, by rwa [Nat.add_sub_cancel' h1] at hp⟩

theorem openEnd_not_add {recs : List Record} :
    ∀ pss, recs[openEnd recs]? ≠ some (.addSource pss) := by
  intro pss h
  apply leadAdds_at (l := recs.drop 1) pss
  rw [List.getElem?_drop]
  rw [show 1 + leadAdds (recs.drop 1) = openEnd recs from rfl]
  exact h

theorem openEnd_le_endIdx {recs : List Record} (hv : ValidStream recs = true) :
    openEnd recs ≤ endIdx recs := by
  have h2 := ValidStream_length hv
  by_contra hx
  have hle := leadAdds_le_length (recs.drop 1)
  rw [List.length_drop] at hle
  have hi : endIdx recs - 1 < leadAdds (recs.drop 1) := by
    unfold openEnd at hx
    unfold endIdx at hx ⊢
    omega
  obtain ⟨pss, hp⟩ := leadAdds_lt _ hi
  rw [List.getElem?_drop] at hp
  rw [show 1 + (endIdx recs - 1) = endIdx recs from by unfold endIdx; omega]
    at hp
  rw [last_endRec hv] at hp
  exact Option.noConfusion hp (fun h => Record.noConfusion h)

theorem ValidAt_openEnd {recs : List Record} (hv : ValidStream recs = true) :
    ValidAt recs (openEnd recs) = true :=
  ValidAt_chain hv (openEnd recs) (by unfold openEnd; omega)
    (openEnd_le_endIdx hv)

theorem shapeA_one {recs : List Record} (hv : ValidStream recs = true) :
    ({ initState true with pos := 1 } : ReaderState) = shapeA recs 1 1 0 0 := by
  have h0 : recs[0]? = some Record.hdr := (ValidStream_hdr hv).1
  have htake : recs.take 1 = [Record.hdr] := by
    rw [show (1 : Nat) = 0 + 1 from rfl, List.take_succ, h0]
    rfl
  have hregs : regsUpTo recs 1 = [] := by
    unfold regsUpTo
    rw [htake]
    rfl
  have hcnt : countersAt recs 1 = [] := by
    unfold countersAt
    rw [hregs]
    rfl
  have hidx : idxEntries recs 1 = [] := by
    unfold idxEntries
    rw [show List.range 1 = [0] from rfl]
    simp [h0]
  unfold shapeA initState
  rw [hregs, hcnt, hidx]

theorem openAddSources_run {recs : List Record} (hv : ValidStream recs = true) :
    ∀ fuel p, 1 ≤ p → p ≤ openEnd recs → ValidAt recs p = true →
    openEnd recs - p < fuel →
    openAddSources recs fuel (shapeA recs p 1 0 0) =
      (.ok (), shapeA recs (openEnd recs) 1 0 0) := by
  intro fuel
  induction fuel with
  | zero => intro p _ _ _ hf; omega
  | succ fuel ih =>
    intro p h1 hle hV hf
    rw [openAddSources]
    rw [shapeA_pos]
    by_cases hp : p = openEnd recs
    · subst hp
      obtain ⟨r, hr⟩ := ValidAt_getElem hV
      rw [hr]
      cases r with
      | addSource pss => exact absurd hr (openEnd_not_add pss)
      | hdr => rfl
      | srcJson a => rfl
      | srcPacket a t pl => rfl
      | sync => rfl
      | stats e => rfl
      | footer ip => rfl
      | endRec => rfl
      | magic => rfl
      | unknownTag => rfl
    · have hplt : p < openEnd recs := Nat.lt_of_le_of_ne hle hp
      obtain ⟨pss, hr⟩ := openEnd_lead p h1 hplt
      rw [hr]
      rw [ParseNewSource_shapeA 1 0 0 hv hV hr]
      exact ih (p + 1) (by omega) (by omega)
        ((ValidAt_addSource hV hr).2) (by omega)

theorem Open_run {recs : List Record} (hv : ValidStream recs = true) :
    Open recs true = (.ok (), shapeA recs (openEnd recs) 1 0 0) := by
  have h2 := ValidStream_length hv
  unfold Open
  rw [SetupIndex_valid hv]
  dsimp only
  rw [show (initState true).pos = 0 from rfl]
  rw [(ValidStream_hdr hv).1]
  show openAddSources recs (recs.length + 1)
    ({ initState true with pos := 1 } : ReaderState) =
    (.ok (), shapeA recs (openEnd recs) 1 0 0)
  rw [shapeA_one hv]
  have hoe : openEnd recs ≤ recs.length := by
    have := leadAdds_le_length (recs.drop 1)
    rw [List.length_drop] at this
    unfold openEnd
    omega
  exact openAddSources_run hv (recs.length + 1) 1 le_rfl
    (by unfold openEnd; omega) (ValidStream_hdr hv).2 (by omega)

/-! ## Reading a valid stream to exhaustion -/

theorem runReadAux_run {recs : List Record} (hv : ValidStream recs = true)
    (src : Nat) :
    ∀ fuel p lock, 1 ≤ p → ValidAt recs p = true → remPkts recs p < fuel →
    ((runReadAux recs src fuel (shapeA recs p p lock 0)).1.map
        (fun fi => fi.sequence_num) =
      List.range' (cntPkts recs src p)
        (cntPkts recs src recs.length - cntPkts recs src p)) ∧
    ∀ fi ∈ (runReadAux recs src fuel (shapeA recs p p lock 0)).1,
      fi.src = src := by
  intro fuel
  induction fuel with
  | zero => intro p lock _ _ hf; omega
  | succ fuel ih =>
    intro p lock h1 hV hf
    have hNF := NextFrame_run hv src p p lock 0 h1 hV (Or.inl rfl)
    rw [runReadAux]
    rcases hfo : firstPktOf recs src p with _ | q
    · rw [hfo] at hNF
      obtain ⟨dl0, hNF'⟩ := hNF
      rw [hNF']
      dsimp only
      refine ⟨?_, ?_⟩
      · rw [firstPktOf_none_count hfo]
        simp
      · intro fi hfi
        simp at hfi
    · rw [hfo] at hNF
      obtain ⟨t, pl, hrq⟩ := firstPktOf_is_pkt hfo
      have hqlen : q < recs.length := (List.getElem?_eq_some_iff.mp hrq).1
      have hpq : p ≤ q := (firstPktOf_not_between hfo).1
      have hVq : ValidAt recs q = true :=
        ValidAt_chain hv q (by omega) (by unfold endIdx; omega)
      have hVq1 : ValidAt recs (q + 1) = true := (ValidAt_srcPacket hVq hrq).2
      rw [hNF]
      dsimp only
      obtain ⟨lock2, hdrain⟩ := drain_shapeB (lock + 1) hVq hrq
      rw [hdrain]
      have hrem : remPkts recs (q + 1) < fuel := by
        have := remPkts_dec_at_pkt hpq hrq
        omega
      obtain ⟨ihmap, ihsrc⟩ := ih (q + 1) lock2 (by omega) hVq1 hrem
      have hcq : cntPkts recs src q = cntPkts recs src p :=
        cntPkts_at_firstPktOf hfo
      have hsucc : cntPkts recs src (q + 1) = cntPkts recs src p + 1 := by
        rw [cntPkts_succ src hrq, hcq]
        simp [isPktOf]
      have htot : cntPkts recs src (q + 1) ≤
          cntPkts recs src recs.length :=
        cntPkts_mono recs src (by omega)
      refine ⟨?_, ?_⟩
      · rw [List.map_cons, ihmap, mkFi_seq hrq, hcq, hsucc]
        rw [show cntPkts recs src recs.length - cntPkts recs src p =
          (cntPkts recs src recs.length - (cntPkts recs src p + 1)) + 1
          from by omega]
        rw [List.range'_succ]
      · intro fi hfi
        rw [List.mem_cons] at hfi
        rcases hfi with rfl | hfi
        · exact mkFi_src hrq
        · exact ihsrc fi hfi

theorem shapeA_congr_m {recs : List Record} {m m' : Nat}
    (h : idxEntries recs m = idxEntries recs m') (p lock dl : Nat) :
    shapeA recs p m lock dl = shapeA recs p m' lock dl := by
  unfold shapeA
  rw [h]

theorem openEnd_gap {recs : List Record} (hv : ValidStream recs = true) :
    ∀ i, 1 ≤ i → i < openEnd recs →
    ∃ r, recs[i]? = some r ∧ isPkt r = false := by
  intro i hi1 hi2
  obtain ⟨pss, hp⟩ := openEnd_lead i hi1 hi2
  exact ⟨.addSource pss, hp, rfl⟩

theorem idxEntries_openEnd {recs : List Record} (hv : ValidStream recs = true) :
    idxEntries recs (openEnd recs) = idxEntries recs 1 :=
  idxEntries_congr_gap (by unfold openEnd; omega) (openEnd_gap hv)

theorem cntPkts_openEnd {recs : List Record} (hv : ValidStream recs = true)
    (a : Nat) : cntPkts recs a (openEnd recs) = 0 := by
  have h := @cntPkts_congr_gap recs a 0 (openEnd recs)
    (by omega : 0 ≤ openEnd recs)
    (fun i hi1 hi2 => by
      rcases Nat.eq_or_lt_of_le hi1 with h0 | h0
      · refine ⟨.hdr, ?_, rfl⟩
        rw [← h0]
        exact (ValidStream_hdr hv).1
      · exact openEnd_gap hv i h0 hi2)
  rw [h, cntPkts_zero]

/-- **C2**: for every valid stream, opening it and repeatedly reading
frames of a source to end-of-stream yields that source's frames with
sequence numbers 0, 1, 2, ... increasing by exactly 1 per frame of that
source (regardless of interleaving), every returned frame belongs to the
requested source, and every data packet of that source in the stream is
returned. -/
theorem NextFrame_assigns_consecutive_sequence_numbers
    {recs : List Record} (hv : ValidStream recs = true) (src : Nat) :
    ((runRead recs src (Open recs true).2).1.map
        (fun fi => fi.sequence_num) =
      List.range (runRead recs src (Open recs true).2).1.length) ∧
    (runRead recs src (Open recs true).2).1.length =
      cntPkts recs src recs.length ∧
    ∀ fi ∈ (runRead recs src (Open recs true).2).1, fi.src = src := by
  have hopen : (Open recs true).2 = shapeA recs (openEnd recs) 1 0 0 := by
    rw [Open_run hv]
  have hshape : shapeA recs (openEnd recs) 1 0 0 =
      shapeA recs (openEnd recs) (openEnd recs) 0 0 :=
    shapeA_congr_m (idxEntries_openEnd hv).symm _ 0 0
  have hrr := runReadAux_run hv src (recs.length + 1) (openEnd recs) 0
    (by unfold openEnd; omega) (ValidAt_openEnd hv)
    (by have := remPkts_le recs (openEnd recs); omega)
  rw [cntPkts_openEnd hv src, Nat.sub_zero] at hrr
  unfold runRead
  rw [hopen, hshape]
  obtain ⟨hmap, hsrc⟩ := hrr
  have hlen : (runReadAux recs src (recs.length + 1)
      (shapeA recs (openEnd recs) (openEnd recs) 0 0)).1.length =
      cntPkts recs src recs.length := by
    have hl := congrArg List.length hmap
    simpa using hl
  refine ⟨?_, hlen, hsrc⟩
  rw [hmap, hlen, List.range_eq_range']

theorem NextFrame_assigns_consecutive_sequence_numbers_witness :
    ValidStream recsTwo = true ∧
    (((runRead recsTwo 0 (Open recsTwo true).2).1.map
        (fun fi => fi.sequence_num) =
      List.range (runRead recsTwo 0 (Open recsTwo true).2).1.length) ∧
    (runRead recsTwo 0 (Open recsTwo true).2).1.length =
      cntPkts recsTwo 0 recsTwo.length ∧
    ∀ fi ∈ (runRead recsTwo 0 (Open recsTwo true).2).1, fi.src = 0) :=
  ⟨by decide, NextFrame_assigns_consecutive_sequence_numbers (by decide) 0⟩

/-! ## `Seek` on a valid stream: the read-ahead path -/

theorem counters_seek_reset {recs : List Record} {q src t n : Nat}
    {pl : List Nat} (hVq : ValidAt recs q = true)
    (hrq : recs[q]? = some (.srcPacket src t pl))
    (hcnt : cntPkts recs src q = n) :
    (countersAt recs (q + 1)).set src n = countersAt recs q := by
  obtain ⟨⟨pss, hps, _⟩, _⟩ := ValidAt_srcPacket hVq hrq
  have hsrcreg : src < (regsUpTo recs q).length :=
    (List.getElem?_eq_some_iff.mp hps).1
  have hsrclt : src < (countersAt recs q).length := by
    rw [countersAt_length]; exact hsrcreg
  rw [countersAt_srcPacket hVq hrq, hcnt, List.set_set]
  apply List.ext_getElem?_iff.mpr
  intro j
  by_cases hj : j = src
  · subst hj
    rw [List.getElem?_set_self hsrclt, countersAt_getElem?, if_pos hsrcreg,
      hcnt]
  · rw [List.getElem?_set_ne (fun h => hj h.symm)]

theorem seek_assemble {recs : List Record} {q src t n : Nat} {pl : List Nat}
    (lock : Nat) (hVq : ValidAt recs q = true)
    (hrq : recs[q]? = some (.srcPacket src t pl))
    (hcnt : cntPkts recs src q = n) :
    ({ seekg q (shapeB recs q lock) with next_packet_framenum :=
        (seekg q (shapeB recs q lock)).next_packet_framenum.set src n } :
      ReaderState) =
    shapeA recs q (q + 1) lock ((mkFi recs q).size) := by
  have hregs : regsUpTo recs (q + 1) = regsUpTo recs q := by
    rw [regsUpTo_succ hrq]
    simp [regOf]
  have hset := counters_seek_reset hVq hrq hcnt
  unfold seekg shapeB shapeA
  dsimp only
  rw [hregs, hset]

theorem seek_back (recs : List Record) (q m lock dl : Nat) :
    unlockR (seekg q (shapeP recs q m lock dl)) =
      shapeA recs q m (lock - 1) dl := by
  unfold unlockR seekg shapeP shapeA
  rfl

theorem fst_ite_pair {A B : Type} {c : Prop} [Decidable c] (x : A)
    (u v : B) : (if c then (x, u) else (x, v)).1 = x := by
  split
  · rfl
  · rfl

theorem ReadRaw_shapeB {recs : List Record} {q a t : Nat} {pl : List Nat}
    (lock : Nat) (hVq : ValidAt recs q = true)
    (hrq : recs[q]? = some (.srcPacket a t pl)) (len : Nat) :
    (ReadRaw recs len (shapeB recs q lock)).1 =
      if pl.length = 0 then .error .noDataBlock
      else .ok (pl.take (if pl.length < len then pl.length else len)) := by
  have hsz := mkFi_size_valid hVq hrq
  have hpay : payloadAt recs q = pl := by
    unfold payloadAt
    rw [hrq]
  unfold ReadRaw
  rw [show (shapeB recs q lock).dataLen = (mkFi recs q).size from rfl, hsz]
  by_cases hz : pl.length = 0
  · rw [if_pos hz, if_pos hz]
  · rw [if_neg hz, if_neg hz]
    dsimp only
    have hempty : pl.isEmpty = false := by
      cases pl
      · simp at hz
      · rfl
    unfold streamRead
    rw [show (shapeB recs q lock).inPayload = !(payloadAt recs q).isEmpty
      from rfl, hpay, hempty]
    rw [if_pos (show ((!false : Bool)) = true from rfl)]
    rw [show (shapeB recs q lock).pos =
      (if (payloadAt recs q).isEmpty then q + 1 else q) from rfl, hpay,
      hempty]
    simp only [Bool.false_eq_true, if_false]
    rw [hrq]
    dsimp only
    rw [show (shapeB recs q lock).consumed = 0 from rfl]
    rw [show (pl.drop 0).take (if pl.length < len then pl.length else len) =
      pl.take (if pl.length < len then pl.length else len) from by
        rw [List.drop_zero]]
    by_cases hc : pl.length ≤ 0 + (if pl.length < len then pl.length else len)
    · rw [if_pos hc, fst_ite_pair]
    · rw [if_neg hc, fst_ite_pair]

theorem seekScan_runB {recs : List Record} (hv : ValidStream recs = true)
    {src n : Nat} (hn : n < cntPkts recs src recs.length) :
    ∀ fuel q0 t0 pl0 lock, ValidAt recs q0 = true →
    recs[q0]? = some (.srcPacket src t0 pl0) →
    cntPkts recs src q0 ≤ n →
    remPkts recs (q0 + 1) < fuel →
    ∃ q t pl lockE, recs[q]? = some (.srcPacket src t pl) ∧
      cntPkts recs src q = n ∧
      seekScan recs src n fuel (shapeB recs q0 lock) =
        (.ok (), shapeB recs q lockE) := by
  intro fuel
  induction fuel with
  | zero => intro q0 t0 pl0 lock _ _ _ hf; omega
  | succ fuel ih =>
    intro q0 t0 pl0 lock hVq0 hrq0 hle hf
    have hVq1 : ValidAt recs (q0 + 1) = true := (ValidAt_srcPacket hVq0 hrq0).2
    have hsucc : cntPkts recs src (q0 + 1) = cntPkts recs src q0 + 1 := by
      rw [cntPkts_succ src hrq0]
      simp [isPktOf]
    rw [seekScan]
    by_cases heq : cntPkts recs src q0 = n
    · have hhas : indexHas (shapeB recs q0 lock).index src n = true := by
        rw [show (shapeB recs q0 lock).index = idxEntries recs (q0 + 1)
          from rfl]
        apply (idxEntries_has_iff recs src n (q0 + 1)).mpr
        omega
      rw [if_pos hhas]
      exact ⟨q0, t0, pl0, lock, hrq0, heq, rfl⟩
    · have hlt : cntPkts recs src q0 < n := by omega
      have hhas : indexHas (shapeB recs q0 lock).index src n = false := by
        rw [show (shapeB recs q0 lock).index = idxEntries recs (q0 + 1)
          from rfl]
        rw [Bool.eq_false_iff]
        intro hcontra
        have := (idxEntries_has_iff recs src n (q0 + 1)).mp hcontra
        omega
      rw [if_neg (by simp [hhas])]
      dsimp only
      have hdrain : (if (shapeB recs q0 lock).dataLen ≠ 0 then
          streamSkip recs (shapeB recs q0 lock).dataLen (shapeB recs q0 lock)
          else shapeB recs q0 lock) = shapeA recs (q0 + 1) (q0 + 1) lock 0 := by
        have hsz := mkFi_size_valid hVq0 hrq0
        rw [show (shapeB recs q0 lock).dataLen = (mkFi recs q0).size from rfl,
          hsz]
        by_cases hz : pl0.length = 0
        · rw [if_neg (by omega)]
          have hnil : pl0 = [] := List.length_eq_zero.mp hz
          subst hnil
          exact shapeB_empty_eq lock hrq0 hVq0
        · rw [if_pos hz]
          have hs := streamSkip_shapeB lock hVq0 hrq0
          rwa [hsz] at hs
      rw [hdrain]
      have hNF := NextFrame_run hv src (q0 + 1) (q0 + 1) lock 0 (by omega)
        hVq1 (Or.inl rfl)
      obtain ⟨q1, hfo⟩ := @firstPktOf_some_of_count recs src (q0 + 1)
        (by omega)
      rw [hfo] at hNF
      rw [hNF]
      dsimp only
      obtain ⟨t1, pl1, hrq1⟩ := firstPktOf_is_pkt hfo
      have hq1ge : q0 + 1 ≤ q1 := (firstPktOf_not_between hfo).1
      have hVq1' : ValidAt recs q1 = true := ValidAt_chain hv q1 (by omega)
        (by have := (List.getElem?_eq_some_iff.mp hrq1).1
            unfold endIdx
            omega)
      have hcq1 : cntPkts recs src q1 = cntPkts recs src q0 + 1 := by
        rw [cntPkts_at_firstPktOf hfo, hsucc]
      have hrem : remPkts recs (q1 + 1) < fuel := by
        have := remPkts_dec_at_pkt hq1ge hrq1
        omega
      exact ih q1 t1 pl1 (lock + 1) hVq1' hrq1 (by omega) hrem

theorem pkt_pos_ge_one {recs : List Record} {q a t : Nat} {pl : List Nat}
    (hv : ValidStream recs = true)
    (hrq : recs[q]? = some (.srcPacket a t pl)) : 1 ≤ q := by
  rcases Nat.eq_zero_or_pos q with h0 | h0
  · subst h0
    rw [(ValidStream_hdr hv).1] at hrq
    exact absurd hrq (by simp)
  · exact h0

theorem pkt_pos_ValidAt {recs : List Record} {q a t : Nat} {pl : List Nat}
    (hv : ValidStream recs = true)
    (hrq : recs[q]? = some (.srcPacket a t pl)) : ValidAt recs q = true := by
  have h1 := pkt_pos_ge_one hv hrq
  have h2 := (List.getElem?_eq_some_iff.mp hrq).1
  exact ValidAt_chain hv q h1 (by unfold endIdx; omega)

theorem Seek_run {recs : List Record} (hv : ValidStream recs = true)
    {src n : Nat}
    (hsrc : src < (regsUpTo recs (openEnd recs)).length)
    (hn : n < cntPkts recs src recs.length) :
    ∃ q t pl lockE, recs[q]? = some (.srcPacket src t pl) ∧
      cntPkts recs src q = n ∧
      Seek recs src n (Open recs true).2 =
        (.ok (mkFi recs q),
         shapeA recs q (q + 1) lockE ((mkFi recs q).size)) := by
  have hopen : (Open recs true).2 = shapeA recs (openEnd recs) 1 0 0 := by
    rw [Open_run hv]
  have hp0 : 1 ≤ openEnd recs := by unfold openEnd; omega
  have hV0 : ValidAt recs (openEnd recs) = true := ValidAt_openEnd hv
  have hc0 : cntPkts recs src (openEnd recs) = 0 := cntPkts_openEnd hv src
  have hNF := NextFrame_run hv src (openEnd recs) (openEnd recs) 1 0 hp0 hV0
    (Or.inl rfl)
  obtain ⟨q0, hfo⟩ := @firstPktOf_some_of_count recs src (openEnd recs)
    (by omega)
  rw [hfo] at hNF
  obtain ⟨t0, pl0, hrq0⟩ := firstPktOf_is_pkt hfo
  have hq0ge : openEnd recs ≤ q0 := (firstPktOf_not_between hfo).1
  have hVq0 : ValidAt recs q0 = true := pkt_pos_ValidAt hv hrq0
  have hcq0 : cntPkts recs src q0 = 0 := by
    rw [cntPkts_at_firstPktOf hfo, hc0]
  have hrem : remPkts recs (q0 + 1) < recs.length := by
    have h1 := remPkts_dec_at_pkt hq0ge hrq0
    have h2 := remPkts_le recs (openEnd recs)
    omega
  obtain ⟨q, t, pl, lockE, hrq, hcnt, hscan⟩ :=
    seekScan_runB hv hn recs.length q0 t0 pl0 2 hVq0 hrq0 (by omega) hrem
  have hVq : ValidAt recs q = true := pkt_pos_ValidAt hv hrq
  refine ⟨q, t, pl, lockE - 1, hrq, hcnt, ?_⟩
  rw [hopen]
  unfold Seek
  dsimp only
  rw [show lockR (shapeA recs (openEnd recs) 1 0 0) =
    shapeA recs (openEnd recs) 1 1 0 from rfl]
  rw [if_neg (show ¬ ¬ ((shapeA recs (openEnd recs) 1 1 0).seekableFlag
    = true) from fun h => h rfl)]
  rw [if_neg (show ¬ (src > (shapeA recs (openEnd recs) 1 1 0).sources.length)
    from by
      rw [show (shapeA recs (openEnd recs) 1 1 0).sources =
        regsUpTo recs (openEnd recs) from rfl]
      omega)]
  rw [if_neg (show ¬ ((shapeA recs (openEnd recs) 1 1 0).dataLen ≠ 0)
    from by simp [shapeA])]
  rw [shapeA_congr_m (idxEntries_openEnd hv).symm (openEnd recs) 1 0]
  rw [seekScan]
  have hhas0 : indexHas
      (shapeA recs (openEnd recs) (openEnd recs) 1 0).index src n = false := by
    rw [show (shapeA recs (openEnd recs) (openEnd recs) 1 0).index =
      idxEntries recs (openEnd recs) from rfl]
    rw [Bool.eq_false_iff]
    intro hcontra
    have := (idxEntries_has_iff recs src n (openEnd recs)).mp hcontra
    omega
  rw [if_neg (by simp [hhas0])]
  dsimp only
  rw [if_neg (show ¬ ((shapeA recs (openEnd recs) (openEnd recs) 1 0).dataLen
    ≠ 0) from by simp [shapeA])]
  rw [hNF]
  dsimp only
  rw [hscan]
  dsimp only
  have hpos : indexPosition (idxEntries recs (q + 1)) src n = q := by
    have hh := (index_reconcile_hit hrq).2
    rwa [hcnt] at hh
  rw [show (shapeB recs q lockE).index = idxEntries recs (q + 1) from rfl]
  rw [hpos]
  rw [seek_assemble lockE hVq hrq hcnt]
  rw [readFrameHeader_shapeA (q + 1) lockE ((mkFi recs q).size) hVq hrq]
  dsimp only
  rw [(mkFi_streampos hrq).2]
  rw [seek_back]

theorem nthForward_run {recs : List Record} (hv : ValidStream recs = true)
    (src : Nat) :
    ∀ n p lock, 1 ≤ p → ValidAt recs p = true →
    cntPkts recs src p + n < cntPkts recs src recs.length →
    ∃ q t pl lockF, recs[q]? = some (.srcPacket src t pl) ∧
      cntPkts recs src q = cntPkts recs src p + n ∧
      nthForward recs src n (shapeA recs p p lock 0) =
        (.ok (mkFi recs q), shapeB recs q lockF) := by
  intro n
  induction n with
  | zero =>
    intro p lock hp hV hcnt
    have hNF := NextFrame_run hv src p p lock 0 hp hV (Or.inl rfl)
    obtain ⟨q, hfo⟩ := @firstPktOf_some_of_count recs src p
      (by omega)
    rw [hfo] at hNF
    obtain ⟨t, pl, hrq⟩ := firstPktOf_is_pkt hfo
    refine ⟨q, t, pl, lock + 1, hrq, ?_, ?_⟩
    · rw [cntPkts_at_firstPktOf hfo]
      omega
    · rw [nthForward, hNF]
  | succ k ih =>
    intro p lock hp hV hcnt
    have hNF := NextFrame_run hv src p p lock 0 hp hV (Or.inl rfl)
    obtain ⟨q0, hfo⟩ := @firstPktOf_some_of_count recs src p
      (by omega)
    rw [hfo] at hNF
    obtain ⟨t0, pl0, hrq0⟩ := firstPktOf_is_pkt hfo
    have hVq0 : ValidAt recs q0 = true := pkt_pos_ValidAt hv hrq0
    have hVq1 : ValidAt recs (q0 + 1) = true := (ValidAt_srcPacket hVq0 hrq0).2
    have hc1 : cntPkts recs src (q0 + 1) = cntPkts recs src p + 1 := by
      rw [cntPkts_succ src hrq0, cntPkts_at_firstPktOf hfo]
      simp [isPktOf]
    obtain ⟨lock2, hdrain⟩ := drain_shapeB (lock + 1) hVq0 hrq0
    obtain ⟨q, t, pl, lockF, hrq, hcnt', hrun⟩ :=
      ih (q0 + 1) lock2 (by omega) hVq1 (by omega)
    refine ⟨q, t, pl, lockF, hrq, ?_, ?_⟩
    · rw [hcnt', hc1]
      omega
    · rw [nthForward, hNF]
      dsimp only
      rw [hdrain]
      exact hrun

/-- **C1** (amended): for every valid stream containing at least `n + 1`
frames of source `src`, `Seek(src, n)` followed by `NextFrame(src)` locates
the same frame descriptor as opening the stream and reading forward with
`NextFrame(src)` to the `n`-th frame of `src`, and consuming the frame via
`ReadRaw` from either session yields byte-identical results for every
requested length — in particular the frame's exact payload bytes.  (A
`ReadRaw` issued directly after `Seek`, without the interposed `NextFrame`,
does not return the payload.) -/
theorem Seek_then_NextFrame_reproduces_forward_payload
    {recs : List Record} {src n : Nat} (hv : ValidStream recs = true)
    (hsrc : src < ((Open recs true).2).sources.length)
    (hn : n < cntPkts recs src recs.length) :
    ∃ fi q t pl,
      recs[q]? = some (.srcPacket src t pl) ∧ fi = mkFi recs q ∧
      (nthForward recs src n (Open recs true).2).1 = .ok fi ∧
      (Seek recs src n (Open recs true).2).1 = .ok fi ∧
      (NextFrame recs src (Seek recs src n (Open recs true).2).2).1 =
        .ok (some fi) ∧
      (∀ len, (ReadRaw recs len
          (NextFrame recs src (Seek recs src n (Open recs true).2).2).2).1 =
        (ReadRaw recs len (nthForward recs src n (Open recs true).2).2).1) ∧
      (pl ≠ [] → (ReadRaw recs fi.size
          (NextFrame recs src (Seek recs src n (Open recs true).2).2).2).1 =
        .ok pl) := by
  have hstate : (Open recs true).2 =
      shapeA recs (openEnd recs) (openEnd recs) 0 0 := by
    rw [Open_run hv]
    exact shapeA_congr_m (idxEntries_openEnd hv).symm _ 0 0
  have hsrc' : src < (regsUpTo recs (openEnd recs)).length := by
    rw [Open_run hv] at hsrc
    exact hsrc
  have hp0 : 1 ≤ openEnd recs := by unfold openEnd; omega
  have hV0 : ValidAt recs (openEnd recs) = true := ValidAt_openEnd hv
  have hc0 : cntPkts recs src (openEnd recs) = 0 := cntPkts_openEnd hv src
  obtain ⟨q, t, pl, lockE, hrq, hcnt, hseek⟩ := Seek_run hv hsrc' hn
  obtain ⟨qF, tF, plF, lockF, hrqF, hcntF, hfwd⟩ :=
    nthForward_run hv src n (openEnd recs) 0 hp0 hV0 (by rw [hc0]; omega)
  have hqq : qF = q := pkt_pos_unique hrqF hrq
    (by rw [hcntF, hcnt, hc0]; omega)
  subst hqq
  rw [hrq] at hrqF
  have hinj : tF = t ∧ plF = pl := by simpa using hrqF.symm
  obtain ⟨h1, h2⟩ := hinj
  subst h1
  subst h2
  have hq1 : 1 ≤ qF := pkt_pos_ge_one hv hrq
  have hVq : ValidAt recs qF = true := pkt_pos_ValidAt hv hrq
  have hNF2 := NextFrame_run hv src qF (qF + 1) lockE ((mkFi recs qF).size)
    hq1 hVq (Or.inr ⟨rfl, src, tF, plF, hrq⟩)
  rw [firstPktOf_here hrq (by simp [isPktOf])] at hNF2
  refine ⟨mkFi recs qF, qF, tF, plF, hrq, rfl, ?_, ?_, ?_, ?_, ?_⟩
  · rw [hstate, hfwd]
  · rw [hseek]
  · rw [hseek]
    dsimp only
    rw [hNF2]
  · intro len
    rw [hseek]
    dsimp only
    rw [hNF2]
    dsimp only
    rw [hstate, hfwd]
    dsimp only
    rw [ReadRaw_shapeB (lockE + 1) hVq hrq len,
      ReadRaw_shapeB lockF hVq hrq len]
  · intro hne
    rw [hseek]
    dsimp only
    rw [hNF2]
    dsimp only
    rw [ReadRaw_shapeB (lockE + 1) hVq hrq _]
    rw [if_neg (by simpa using hne)]
    rw [mkFi_size_valid hVq hrq]
    rw [if_neg (by omega : ¬ plF.length < plF.length)]
    rw [List.take_length]

theorem Seek_then_NextFrame_reproduces_forward_payload_witness :
    ValidStream recsTwo = true ∧
    0 < ((Open recsTwo true).2).sources.length ∧
    1 < cntPkts recsTwo 0 recsTwo.length ∧
    (∃ fi q t pl,
      recsTwo[q]? = some (.srcPacket 0 t pl) ∧ fi = mkFi recsTwo q ∧
      (nthForward recsTwo 0 1 (Open recsTwo true).2).1 = .ok fi ∧
      (Seek recsTwo 0 1 (Open recsTwo true).2).1 = .ok fi ∧
      (NextFrame recsTwo 0 (Seek recsTwo 0 1 (Open recsTwo true).2).2).1 =
        .ok (some fi) ∧
      (∀ len, (ReadRaw recsTwo len
          (NextFrame recsTwo 0
            (Seek recsTwo 0 1 (Open recsTwo true).2).2).2).1 =
        (ReadRaw recsTwo len
          (nthForward recsTwo 0 1 (Open recsTwo true).2).2).1) ∧
      (pl ≠ [] → (ReadRaw recsTwo fi.size
          (NextFrame recsTwo 0
            (Seek recsTwo 0 1 (Open recsTwo true).2).2).2).1 =
        .ok pl)) :=
  ⟨by decide, by decide, by decide,
   Seek_then_NextFrame_reproduces_forward_payload (by decide) (by decide)
     (by decide)⟩

end Pangolin
